import Mathlib

/-!
Verification development for the pagespeed library core.

Part 1 embeds the JavaScript minifier of js_minify.cc: a single-pass
character scanner, templated over an output consumer, with one-token
lookbehind.  Bytes are modelled as `Nat` (0..255); the C++ `char` is signed
on the reference platform, so every place where the source converts a
`char` to an `int` (token values, `Peek`, `IsIdentifierChar` arguments)
goes through `tokOfByte`, which sign-extends.  The C++ `error_` flag is a
`Bool`; the embedding refines it to an `Option MinifyErrCause` recording
which of the source's `error_ = true;` sites fired, with `none` meaning
`error_ == false`.  All scanner loops strictly advance the index, so each
loop is given fuel `input.length + 1`, which is sufficient; theorems that
quantify over all inputs are proved for every fuel value and therefore do
not depend on fuel sufficiency.
-/

/-- Byte value as the C++ `int` obtained from a (signed) `char`. -/
def tokOfByte (b : Nat) : Int :=
  if b < 128 then (b : Int) else (b : Int) - 256

/-- Sentinel for the end of the input (`kEOF`). -/
def kEOF : Int := -1

/-- Token constant: the start of the input. -/
def kStartToken : Int := 256

/-- Token constant: a conditional compilation comment. -/
def kCCCommentToken : Int := 257

/-- Token constant: a regular expression literal. -/
def kRegexToken : Int := 258

/-- Token constant: a string literal. -/
def kStringToken : Int := 259

/-- Token constant: name, number, or keyword other than return-like keywords. -/
def kNameNumberToken : Int := 260

/-- Token constant: a keyword that can precede a regex literal. -/
def kKeywordCanPrecedeRegExToken : Int := 261

/-- Token constant: a `++` token. -/
def kPlusPlusToken : Int := 262

/-- Token constant: a `--` token. -/
def kMinusMinusToken : Int := 263

/-- Mirror of `IsIdentifierChar`: characters that can appear in identifiers. -/
def IsIdentifierChar (c : Int) : Bool :=
  (97 ≤ c ∧ c ≤ 122) ∨ (48 ≤ c ∧ c ≤ 57) ∨ (65 ≤ c ∧ c ≤ 90) ∨
    c = 95 ∨ c = 36 ∨ c = 92 ∨ 127 ≤ c

/-- Mirror of `CannotBeginOrEndStatement`. -/
def CannotBeginOrEndStatement (t : Int) : Bool :=
  t = kStartToken ∨ t = 61 ∨ t = 60 ∨ t = 62 ∨ t = 59 ∨ t = 58 ∨ t = 63 ∨
    t = 124 ∨ t = 94 ∨ t = 38 ∨ t = 42 ∨ t = 47 ∨ t = 37 ∨ t = 44 ∨ t = 46

/-- Mirror of `EndsPrimaryExpression`. -/
def EndsPrimaryExpression (t : Int) : Bool :=
  t = kNameNumberToken ∨ t = kRegexToken ∨ t = kStringToken ∨ t = 41 ∨ t = 93

/-- Mirror of `CanSuppressLinebreak`. -/
def CanSuppressLinebreak (prevToken nextToken : Int) : Bool :=
  (CannotBeginOrEndStatement prevToken ∨
      prevToken = 40 ∨ prevToken = 91 ∨ prevToken = 123 ∨
      prevToken = 33 ∨ prevToken = 126 ∨ prevToken = 43 ∨ prevToken = 45) ∨
  (CannotBeginOrEndStatement nextToken ∨
      nextToken = 41 ∨ nextToken = 93 ∨ nextToken = 125) ∨
  (EndsPrimaryExpression prevToken ∧
      (nextToken = 40 ∨ nextToken = 91 ∨ nextToken = 43 ∨ nextToken = 45))

/-- Modelled from the spec: `JsKeywords::CanKeywordPrecedeRegEx` lives in
js_keywords.cc, which is not among the provided sources.  Per the spec
(sections 2 and 4.2), the keywords that may directly precede a regex
literal are return, throw, typeof, in, instanceof, new, delete, void and
the control-flow keywords. -/
def jsKeywordsCanPrecedeRegEx : List (List Nat) :=
  (["case", "delete", "do", "else", "for", "if", "in", "instanceof", "new",
    "return", "switch", "throw", "typeof", "void", "while"]).map
    (fun s => s.data.map Char.toNat)

/-- Modelled from the spec: keyword classification used by
`ConsumeNameOrNumber`; see `jsKeywordsCanPrecedeRegEx`. -/
def CanKeywordPrecedeRegEx (token : List Nat) : Bool :=
  jsKeywordsCanPrecedeRegEx.contains token

/-- Output sink interface of the `Minifier` template: `push_back` a byte or
`append` a span of bytes. -/
structure OutputConsumer (α : Type) where
  push : α → Nat → α
  append : α → List Nat → α

/-- Mirror of `StringConsumer`: accumulates the output bytes. -/
def StringConsumer : OutputConsumer (List Nat) :=
  ⟨fun s c => s ++ [c], fun s l => s ++ l⟩

/-- Mirror of `SizeConsumer`: counts the output bytes.  The C++ counter is
an `int`; it is modelled as an unbounded natural (overflow of a 2 GiB
output is undefined behaviour in the source and is not modelled). -/
def SizeConsumer : OutputConsumer Nat :=
  ⟨fun n _ => n + 1, fun n l => n + l.length⟩

/-- Mirror of the `Whitespace` enum. -/
inductive Whitespace where
  | NO_WHITESPACE : Whitespace
  | SPACE : Whitespace
  | LINEBREAK : Whitespace
deriving DecidableEq

/-- Cause of a minification error: one tag per `error_ = true;` site of the
source (end of input inside a block comment, a string literal, or a regex
literal, and the `break` on a raw newline inside a regex literal). -/
inductive MinifyErrCause where
  | unterminatedComment : MinifyErrCause
  | unterminatedString : MinifyErrCause
  | unterminatedRegex : MinifyErrCause
  | newlineInRegex : MinifyErrCause
deriving DecidableEq

/-- State of the `Minifier` other than the input and the index: the output
sink, the whitespace-since-previous-token, the previous token, the error
flag (refined with its cause) and the collapse-strings flag. -/
structure MinState (α : Type) where
  output : α
  whitespace : Whitespace
  prevToken : Int
  error : Option MinifyErrCause
  collapseString : Bool

/-- Mirror of `Minifier::Peek`: the character after the index, sign-extended,
or `kEOF`. -/
def Peek (input : List Nat) (i : Nat) : Int :=
  match input[i + 1]? with
  | some b => tokOfByte b
  | none => kEOF

/-- Mirror of `Minifier::ChangeToken`. -/
def ChangeToken {α : Type} (C : OutputConsumer α) (st : MinState α)
    (nextToken : Int) : MinState α :=
  let st :=
    if st.whitespace = .LINEBREAK ∧
        ¬ CanSuppressLinebreak st.prevToken nextToken then
      { st with output := C.push st.output 10 }
    else st
  { st with whitespace := .NO_WHITESPACE, prevToken := nextToken }

/-- Mirror of `Minifier::InsertSpaceIfNeeded`. -/
def InsertSpaceIfNeeded {α : Type} (C : OutputConsumer α) (st : MinState α) :
    MinState α :=
  let st :=
    match st.whitespace with
    | .SPACE => { st with output := C.push st.output 32 }
    | .LINEBREAK => { st with output := C.push st.output 10 }
    | .NO_WHITESPACE => st
  { st with whitespace := .NO_WHITESPACE }

/-- Scan loop of `Minifier::ConsumeBlockComment`, from index `i` (first byte
after the opening slash-star). -/
def ConsumeBlockCommentLoop {α : Type} (C : OutputConsumer α)
    (input : List Nat) (mayBeCCC : Bool) (b : Nat) :
    Nat → Nat → MinState α → Nat × MinState α
  | 0, i, st => (i, st)
  | fuel + 1, i, st =>
    if i < input.length then
      if input.getD i 0 = 42 ∧ Peek input i = 47 then
        let i2 := i + 2
        if mayBeCCC ∧ input.getD (i2 - 3) 0 = 64 then
          let st := ChangeToken C st kCCCommentToken
          let out := C.append st.output ((input.drop b).take (i2 - b))
          (i2, { st with output := out })
        else if st.whitespace = .NO_WHITESPACE then
          (i2, { st with whitespace := .SPACE })
        else
          (i2, st)
      else
        ConsumeBlockCommentLoop C input mayBeCCC b fuel (i + 1) st
    else
      (i, { st with error := some .unterminatedComment })

/-- Mirror of `Minifier::ConsumeBlockComment`; `i` points at the opening
slash (with a star right after it). -/
def ConsumeBlockComment {α : Type} (C : OutputConsumer α) (input : List Nat)
    (i : Nat) (st : MinState α) : Nat × MinState α :=
  let j := i + 2
  let mayBeCCC : Bool := decide (j < input.length ∧ input.getD j 0 = 64)
  ConsumeBlockCommentLoop C input mayBeCCC i (input.length + 1) j st

/-- Scan loop of `Minifier::ConsumeLineComment`: advance to the next
linebreak or the end of input. -/
def ConsumeLineCommentLoop (input : List Nat) : Nat → Nat → Nat
  | 0, i => i
  | fuel + 1, i =>
    if i < input.length ∧ input.getD i 0 ≠ 10 ∧ input.getD i 0 ≠ 13 then
      ConsumeLineCommentLoop input fuel (i + 1)
    else i

/-- Mirror of `Minifier::ConsumeLineComment`. -/
def ConsumeLineComment {α : Type} (input : List Nat) (i : Nat)
    (st : MinState α) : Nat × MinState α :=
  (ConsumeLineCommentLoop input (input.length + 1) i,
   { st with whitespace := .LINEBREAK })

/-- Collection loop of `Minifier::ConsumeNameOrNumber`: gather the maximal
run of identifier characters. -/
def ConsumeNameOrNumberLoop (input : List Nat) :
    Nat → Nat → List Nat → Nat × List Nat
  | 0, i, t => (i, t)
  | fuel + 1, i, t =>
    if i < input.length ∧ IsIdentifierChar (tokOfByte (input.getD i 0)) then
      ConsumeNameOrNumberLoop input fuel (i + 1) (t ++ [input.getD i 0])
    else (i, t)

/-- Mirror of `Minifier::ConsumeNameOrNumber`. -/
def ConsumeNameOrNumber {α : Type} (C : OutputConsumer α) (input : List Nat)
    (i : Nat) (st : MinState α) : Nat × MinState α :=
  let st :=
    if st.prevToken = kNameNumberToken ∨
        st.prevToken = kKeywordCanPrecedeRegExToken ∨
        st.prevToken = kRegexToken then
      InsertSpaceIfNeeded C st
    else st
  let r := ConsumeNameOrNumberLoop input (input.length + 1) i []
  let st := ChangeToken C st
    (if CanKeywordPrecedeRegEx r.2 then kKeywordCanPrecedeRegExToken
     else kNameNumberToken)
  (r.1, { st with output := C.append st.output r.2 })

/-- Scan loop of `Minifier::ConsumeRegex`, from the byte after the opening
slash; `b` is the index of the opening slash. -/
def ConsumeRegexLoop {α : Type} (C : OutputConsumer α) (input : List Nat)
    (b : Nat) : Nat → Nat → Bool → MinState α → Nat × MinState α
  | 0, i, _, st => (i, st)
  | fuel + 1, i, withinBrackets, st =>
    if i < input.length then
      let ch := input.getD i 0
      let i2 := i + 1
      if ch = 92 then
        ConsumeRegexLoop C input b fuel (i2 + 1) withinBrackets st
      else if ch = 47 then
        if withinBrackets = false then
          let st := if st.prevToken = 47 then InsertSpaceIfNeeded C st else st
          let st := ChangeToken C st kRegexToken
          let out := C.append st.output ((input.drop b).take (i2 - b))
          (i2, { st with output := out })
        else
          ConsumeRegexLoop C input b fuel i2 withinBrackets st
      else if ch = 91 then
        ConsumeRegexLoop C input b fuel i2 true st
      else if ch = 93 then
        ConsumeRegexLoop C input b fuel i2 false st
      else if ch = 10 then
        (i2, { st with error := some .newlineInRegex })
      else
        ConsumeRegexLoop C input b fuel i2 withinBrackets st
    else
      (i, { st with error := some .unterminatedRegex })

/-- Mirror of `Minifier::ConsumeRegex`; `i` points at the opening slash. -/
def ConsumeRegex {α : Type} (C : OutputConsumer α) (input : List Nat)
    (i : Nat) (st : MinState α) : Nat × MinState α :=
  ConsumeRegexLoop C input i (input.length + 1) (i + 1) false st

/-- Scan loop of `Minifier::ConsumeString`, from the byte after the opening
quote; `b` is the index of the opening quote and `q` the quote byte. -/
def ConsumeStringLoop {α : Type} (C : OutputConsumer α) (input : List Nat)
    (b : Nat) (q : Nat) : Nat → Nat → MinState α → Nat × MinState α
  | 0, i, st => (i, st)
  | fuel + 1, i, st =>
    if i < input.length then
      let ch := input.getD i 0
      let i2 := i + 1
      if ch = 92 then
        ConsumeStringLoop C input b q fuel (i2 + 1) st
      else if ch = q then
        let st := ChangeToken C st kStringToken
        if st.collapseString then
          (i2, { st with output := C.push (C.push st.output q) q })
        else
          let out := C.append st.output ((input.drop b).take (i2 - b))
          (i2, { st with output := out })
      else
        ConsumeStringLoop C input b q fuel i2 st
    else
      (i, { st with error := some .unterminatedString })

/-- Mirror of `Minifier::ConsumeString`; `i` points at the opening quote. -/
def ConsumeString {α : Type} (C : OutputConsumer α) (input : List Nat)
    (i : Nat) (st : MinState α) : Nat × MinState α :=
  ConsumeStringLoop C input i (input.getD i 0) (input.length + 1) (i + 1) st

/-- Check whether the input, from index `i` on, starts with the given byte
pattern (mirror of `input_.substr(index_).starts_with(...)`). -/
def startsWithFrom (input : List Nat) (i : Nat) (pat : List Nat) : Bool :=
  ((input.drop i).take pat.length) = pat

/-- Main loop of `Minifier::Minify`: the branch cascade over the current
character, in source order. -/
def MinifyLoop {α : Type} (C : OutputConsumer α) (input : List Nat) :
    Nat → Nat → MinState α → MinState α
  | 0, _, st => st
  | fuel + 1, i, st =>
    if i < input.length ∧ st.error = none then
      let ch := input.getD i 0
      if ch = 10 ∨ ch = 13 then
        MinifyLoop C input fuel (i + 1) { st with whitespace := .LINEBREAK }
      else if ch = 32 ∨ ch = 9 then
        MinifyLoop C input fuel (i + 1)
          (if st.whitespace = .NO_WHITESPACE then
            { st with whitespace := .SPACE }
          else st)
      else if ch = 39 ∨ ch = 34 ∨ ch = 96 then
        let r := ConsumeString C input i st
        MinifyLoop C input fuel r.1 r.2
      else if ch = 47 then
        let next := Peek input i
        if next = 47 then
          let r := ConsumeLineComment input i st
          MinifyLoop C input fuel r.1 r.2
        else if next = 42 then
          let r := ConsumeBlockComment C input i st
          MinifyLoop C input fuel r.1 r.2
        else if EndsPrimaryExpression st.prevToken then
          let st := ChangeToken C st 47
          MinifyLoop C input fuel (i + 1)
            { st with output := C.push st.output ch }
        else
          let r := ConsumeRegex C input i st
          MinifyLoop C input fuel r.1 r.2
      else if IsIdentifierChar (tokOfByte ch) then
        let r := ConsumeNameOrNumber C input i st
        MinifyLoop C input fuel r.1 r.2
      else if ch = 60 ∧ startsWithFrom input i [60, 33, 45, 45] then
        let r := ConsumeLineComment input i st
        MinifyLoop C input fuel r.1 r.2
      else if ch = 45 ∧
          (st.whitespace = .LINEBREAK ∨ st.prevToken = kStartToken) ∧
          startsWithFrom input i [45, 45, 62] then
        let r := ConsumeLineComment input i st
        MinifyLoop C input fuel r.1 r.2
      else if ch = 43 ∧ Peek input i = 43 then
        let st :=
          if st.prevToken = 43 ∨ st.prevToken = kPlusPlusToken then
            InsertSpaceIfNeeded C st
          else st
        let st := ChangeToken C st kPlusPlusToken
        MinifyLoop C input fuel (i + 2)
          { st with output := C.append st.output [43, 43] }
      else if ch = 45 ∧ Peek input i = 45 then
        let st :=
          if st.prevToken = 45 ∨ st.prevToken = kMinusMinusToken ∨
              st.prevToken = 33 then
            InsertSpaceIfNeeded C st
          else st
        let st := ChangeToken C st kMinusMinusToken
        MinifyLoop C input fuel (i + 2)
          { st with output := C.append st.output [45, 45] }
      else
        let st :=
          if (st.prevToken = tokOfByte ch ∧ (ch = 43 ∨ ch = 45)) ∨
              (st.prevToken = kPlusPlusToken ∧ ch = 43) ∨
              (st.prevToken = kMinusMinusToken ∧ ch = 45) ∨
              (st.prevToken = 60 ∧ ch = 33) ∨
              (st.prevToken = 33 ∧ ch = 45) then
            InsertSpaceIfNeeded C st
          else st
        let st := ChangeToken C st (tokOfByte ch)
        MinifyLoop C input fuel (i + 1)
          { st with output := C.push st.output ch }
    else st

/-- Run the minifier from the initial state (mirror of the `Minifier`
constructor followed by `Minify()`). -/
def RunMinifier {α : Type} (C : OutputConsumer α) (out0 : α)
    (collapse : Bool) (input : List Nat) : MinState α :=
  MinifyLoop C input (input.length + 1) 0
    ⟨out0, .NO_WHITESPACE, kStartToken, none, collapse⟩

/-- Mirror of `Minifier::GetOutput`: the output if no error occurred. -/
def GetOutput {α : Type} (C : OutputConsumer α) (out0 : α) (collapse : Bool)
    (input : List Nat) : Option α :=
  let st := RunMinifier C out0 collapse input
  if st.error = none then some st.output else none

/-- Mirror of `pagespeed::js::MinifyJs` (success is modelled by `some`). -/
def MinifyJs (input : List Nat) : Option (List Nat) :=
  GetOutput StringConsumer [] false input

/-- Mirror of `pagespeed::js::GetMinifiedJsSize`. -/
def GetMinifiedJsSize (input : List Nat) : Option Nat :=
  GetOutput SizeConsumer 0 false input

/-- Mirror of `pagespeed::js::MinifyJsAndCollapseStrings`. -/
def MinifyJsAndCollapseStrings (input : List Nat) : Option (List Nat) :=
  GetOutput StringConsumer [] true input

/-- Mirror of `pagespeed::js::GetMinifiedStringCollapsedJsSize`. -/
def GetMinifiedStringCollapsedJsSize (input : List Nat) : Option Nat :=
  GetOutput SizeConsumer 0 true input

/-- Error cause of the plain (string-sink, no collapse) run; `none` means
the run succeeded. -/
def MinifyErrorOf (input : List Nat) : Option MinifyErrCause :=
  (RunMinifier StringConsumer [] false input).error

/-- Bytes of an ASCII string literal (for concrete test inputs). -/
def strBytes (s : String) : List Nat :=
  s.data.map Char.toNat

/-!
Part 2 embeds resource_collection.cc: the resource store, the redirect
graph and the redirect registry.  `std::map<std::string, T>` iterates its
entries in ascending key order, so it is modelled as a key-sorted
association list with a sorted upsert.  `std::set<std::string>` is only
ever queried for membership, so it is modelled as a plain list.  The
`resource → chain` registry map is keyed by `Resource*` pointers and its
iteration order is never observed, so it is modelled as an unsorted
association list with replace-on-insert; chains are stored by value
(pointer identity of chains is not needed by the claims).
-/

/-- Lexicographic strict order on character lists, by code point (the
comparison `std::string::operator<` performs, byte-wise). -/
def charListLt : List Char → List Char → Bool
  | [], [] => false
  | [], _ :: _ => true
  | _ :: _, [] => false
  | a :: as, b :: bs =>
    if a.toNat < b.toNat then true
    else if b.toNat < a.toNat then false
    else charListLt as bs

/-- Lexicographic strict order on strings (`std::string::operator<`, the
key order of `std::map<std::string, T>`). -/
def strLt (a b : String) : Bool :=
  charListLt a.data b.data

/-- Sorted-insert-or-update for a key-sorted association list (the model
of `std::map<std::string, α>`): `f none` for a fresh key, `f (some v)` to
update an existing binding, keys kept in ascending order. -/
def mapUpsert {α : Type} : List (String × α) → String → (Option α → α) →
    List (String × α)
  | [], k, f => [(k, f none)]
  | (k', v') :: t, k, f =>
    if strLt k k' then (k, f none) :: (k', v') :: t
    else if k = k' then (k', f (some v')) :: t
    else (k', v') :: mapUpsert t k f

/-- Lookup in an association list (`std::map::find`). -/
def mapFind {α : Type} (l : List (String × α)) (k : String) : Option α :=
  (l.find? (fun p => decide (p.1 = k))).map Prod.snd

/-- `m[k] = v` on a sorted association list. -/
def mapInsert {α : Type} (l : List (String × α)) (k : String) (v : α) :
    List (String × α) :=
  mapUpsert l k (fun _ => v)

/-- Keys of an association list, in storage (= iteration) order. -/
def mapKeys {α : Type} (l : List (String × α)) : List String :=
  l.map Prod.fst

/-- Invariant of the `std::map` model: keys strictly ascending. -/
def MapSorted {α : Type} (l : List (String × α)) : Prop :=
  l.Pairwise (fun a b => strLt a.1 b.1 = true)

/-- Insert-or-replace for an unsorted association list (the model of the
pointer-keyed `std::map<const Resource*, T>`). -/
def assocUpsert {κ ν : Type} [DecidableEq κ] :
    List (κ × ν) → κ → ν → List (κ × ν)
  | [], k, v => [(k, v)]
  | (k', v') :: t, k, v =>
    if k = k' then (k, v) :: t else (k', v') :: assocUpsert t k v

/-- Lookup in an unsorted association list. -/
def assocFind {κ ν : Type} [DecidableEq κ] (l : List (κ × ν)) (k : κ) :
    Option ν :=
  (l.find? (fun p => decide (p.1 = k))).map Prod.snd

/-- Erase a key from an unsorted association list (`std::map::erase`). -/
def assocErase {κ ν : Type} [DecidableEq κ] :
    List (κ × ν) → κ → List (κ × ν)
  | [], _ => []
  | (k', v') :: t, k =>
    if k' = k then t else (k', v') :: assocErase t k

/-- Resource type classification; only the REDIRECT/non-REDIRECT
distinction is observed by the embedded code. -/
inductive ResourceType where
  | REDIRECT : ResourceType
  | HTML : ResourceType
  | OTHER : ResourceType
deriving DecidableEq

/-- The attributes of a `Resource` consumed by the embedded code.  The
redirect target is carried as a field (see `GetRedirectedUrl`). -/
structure Resource where
  requestUrl : String
  host : String
  responseStatusCode : Int
  requestStartTimeMillis : Option Int
  resourceType : ResourceType
  redirectTargetUrl : String
deriving DecidableEq

/-- Modelled from the spec: `uri_util::GetUriWithoutFragment` (uri_util.cc
is not among the provided sources).  Per the spec it keeps
scheme+authority+path+query and strips the fragment, and it can fail on a
malformed URL; failure is modelled as the empty string. -/
def GetUriWithoutFragment (url : String) : Option String :=
  if url = "" then none
  else some (String.mk (url.data.takeWhile (fun c => c ≠ '#')))

/-- Modelled from the spec: `resource_util::GetRedirectedUrl`
(resource_util.cc is not among the provided sources).  Per the spec it
returns the target URL (the `Location` header resolved against the
request URL, carried here as `redirectTargetUrl`) when the resource IS a
redirect, and the empty string otherwise. -/
def GetRedirectedUrl (r : Resource) : String :=
  if r.resourceType = ResourceType.REDIRECT then r.redirectTargetUrl else ""

/-- State of a `ResourceCollection`.  The redirect registry is kept
outside this structure (`RedirectRegistry` below) to keep the model
first-order; `Freeze` itself (the stable sort) is not embedded — the
claims quantify over the frozen state directly. -/
structure ResourceCollection where
  resources : List Resource
  urlResourceMap : List (String × Resource)
  hostResourceMap : List (String × List Resource)
  requestOrderVector : List Resource
  primaryResourceUrl : String
  frozen : Bool
  resourceFilterAccepts : Resource → Bool

/-- A fresh collection with the default allow-all filter. -/
def emptyResourceCollection : ResourceCollection :=
  ⟨[], [], [], [], "", false, fun _ => true⟩

/-- Mirror of `ResourceCollection::has_resource_with_url`: canonicalize
the query (falling back to the raw string on failure), then look up. -/
def hasResourceWithUrl (c : ResourceCollection) (url : String) : Bool :=
  let urlCanon :=
    match GetUriWithoutFragment url with
    | some u => u
    | none => url
  (mapFind c.urlResourceMap urlCanon).isSome

/-- Mirror of `ResourceCollection::IsValidResource`. -/
def IsValidResource (c : ResourceCollection) (r : Resource) : Bool :=
  if r.requestUrl = "" then false
  else if hasResourceWithUrl c r.requestUrl then false
  else if r.responseStatusCode ≤ 0 then false
  else if ¬ c.resourceFilterAccepts r then false
  else true

/-- Mirror of `ResourceCollection::AddResource`: the boolean result is
the C++ return value; note that the URL map is keyed by the resource's
RAW request URL (`url_resource_map_[url] = resource`), with no
canonicalization on the insertion side. -/
def AddResource (c : ResourceCollection) (r : Resource) :
    ResourceCollection × Bool :=
  if c.frozen then (c, false)
  else if ¬ IsValidResource c r then (c, false)
  else
    ({ c with
        resources := c.resources ++ [r],
        urlResourceMap := mapInsert c.urlResourceMap r.requestUrl r,
        hostResourceMap := mapUpsert c.hostResourceMap r.host
          (fun old =>
            match old with
            | none => [r]
            | some s => if s.contains r then s else s ++ [r]) },
      true)

/-- Mirror of `ResourceCollection::GetResourceWithUrlOrNull`. -/
def GetResourceWithUrlOrNull (c : ResourceCollection) (url : String) :
    Option Resource :=
  let urlCanon :=
    match GetUriWithoutFragment url with
    | some u => u
    | none => url
  mapFind c.urlResourceMap urlCanon

/-- Mirror of `ResourceCollection::GetResourcesInRequestOrder`: NULL when
the request-order vector is empty. -/
def GetResourcesInRequestOrder (c : ResourceCollection) :
    Option (List Resource) :=
  if c.requestOrderVector = [] then none else some c.requestOrderVector

/-- Mirror of `ResourceCollection::GetPrimaryResourceOrNull`. -/
def GetPrimaryResourceOrNull (c : ResourceCollection) : Option Resource :=
  let primaryUrl :=
    match GetUriWithoutFragment c.primaryResourceUrl with
    | some u => u
    | none => c.primaryResourceUrl
  if primaryUrl = "" then none
  else GetResourceWithUrlOrNull c primaryUrl

/-- State of the anonymous-namespace `RedirectGraph`: the URL-to-URLs
multimap (a `std::map`, hence key-sorted), the set of URLs appearing as a
target, and the processed set of the traversal. -/
structure RedirectGraph where
  redirectMap : List (String × List String)
  destinations : List String
  processed : List String

/-- A fresh redirect graph. -/
def emptyRedirectGraph : RedirectGraph := ⟨[], [], []⟩

/-- Mirror of `RedirectGraph::AddResource`: for a resource with a
non-empty redirect target, append the target to the source URL's list and
record the target as a destination (`std::set::insert` is modelled by
list append — only membership is ever queried). -/
def RedirectGraphAddResource (g : RedirectGraph) (r : Resource) :
    RedirectGraph :=
  let destination := GetRedirectedUrl r
  if destination ≠ "" then
    { g with
        redirectMap := mapUpsert g.redirectMap r.requestUrl
          (fun old =>
            match old with
            | none => [destination]
            | some v => v ++ [destination]),
        destinations := g.destinations ++ [destination] }
  else g

/-- Build the redirect graph from the resources in insertion order (the
loop of `RedirectRegistry::BuildRedirectChains`). -/
def BuildRedirectGraph (rs : List Resource) : RedirectGraph :=
  rs.foldl RedirectGraphAddResource emptyRedirectGraph

/-- Mirror of `RedirectGraph::GetPriorizedRoots`: one pass over the map
in iteration (= ascending key) order, primary roots (sources that are not
destinations) first, then secondary roots. -/
def GetPriorizedRoots (g : RedirectGraph) : List String :=
  let part := (mapKeys g.redirectMap).partition
    (fun root => ! g.destinations.contains root)
  part.1 ++ part.2

/-- Total number of targets in the redirect map (fuel bound for the DFS:
every URL's target list is pushed at most once). -/
def sumTargets (g : RedirectGraph) : Nat :=
  g.redirectMap.foldl (fun n p => n + p.2.length) 0

/-- DFS loop of `RedirectGraph::PopulateRedirectChainResult`.  The C++
work stack is a vector with its back as the top; here the list head is
the top, and pushing the reversed target list at the vector's back is
prepending the target list in order.  `redirect_map_[current]` on a
missing key default-inserts an empty vector in C++; the insertion is
unobservable afterwards (keys are only read by `GetPriorizedRoots`,
which already ran), so the lookup is modelled without it. -/
def PopulateLoop (col : ResourceCollection) :
    Nat → RedirectGraph → List String → List Resource →
    RedirectGraph × List Resource
  | 0, g, _, chain => (g, chain)
  | fuel + 1, g, stack, chain =>
    match stack with
    | [] => (g, chain)
    | current :: rest =>
      match GetResourceWithUrlOrNull col current with
      | none => PopulateLoop col fuel g rest chain
      | some resource =>
        let chain := chain ++ [resource]
        if g.processed.contains current then
          PopulateLoop col fuel g rest chain
        else
          let g := { g with processed := g.processed ++ [current] }
          let targets :=
            match mapFind g.redirectMap current with
            | some v => v
            | none => []
          PopulateLoop col fuel g (targets ++ rest) chain

/-- Mirror of `RedirectGraph::PopulateRedirectChainResult`. -/
def PopulateRedirectChainResult (col : ResourceCollection)
    (g : RedirectGraph) (root : String) : RedirectGraph × List Resource :=
  PopulateLoop col (sumTargets g + g.redirectMap.length + 1) g [root] []

/-- Mirror of `RedirectGraph::AppendRedirectChainResults`: visit the
prioritized roots in order, skipping already-processed ones, appending
one chain per visited root (the C++ pushes an empty chain and populates
it in place). -/
def AppendRedirectChainResults (col : ResourceCollection)
    (g : RedirectGraph) (chains : List (List Resource)) :
    RedirectGraph × List (List Resource) :=
  (GetPriorizedRoots g).foldl
    (fun acc root =>
      if acc.1.processed.contains root then acc
      else
        let r := PopulateRedirectChainResult col acc.1 root
        (r.1, acc.2 ++ [r.2]))
    (g, chains)

/-- State of a `RedirectRegistry`. -/
structure RedirectRegistry where
  redirectChains : List (List Resource)
  resourceToRedirectChainMap : List (Resource × List Resource)
  initialized : Bool

/-- A fresh registry. -/
def emptyRedirectRegistry : RedirectRegistry := ⟨[], [], false⟩

/-- Mirror of `RedirectRegistry::BuildRedirectChains`: drive the graph,
replace the chain vector, and index every member of every chain (the C++
map is not cleared first, so existing entries are kept as the base). -/
def BuildRedirectChains (reg : RedirectRegistry)
    (col : ResourceCollection) : RedirectRegistry :=
  let g := BuildRedirectGraph col.resources
  let chains := (AppendRedirectChainResults col g []).2
  let m := chains.foldl
    (fun m chain => chain.foldl (fun m r => assocUpsert m r chain) m)
    reg.resourceToRedirectChainMap
  { reg with redirectChains := chains, resourceToRedirectChainMap := m }

/-- Mirror of `RedirectRegistry::GetRedirectChainOrNull`; the argument is
an `Option` because the C++ takes a possibly-NULL `Resource*`. -/
def GetRedirectChainOrNull (reg : RedirectRegistry)
    (resource : Option Resource) : Option (List Resource) :=
  match resource with
  | none => none
  | some r => assocFind reg.resourceToRedirectChainMap r

/-- Mirror of `RedirectRegistry::GetFinalRedirectTarget`:
`chain ? chain->back() : resource`.  `back()` of a chain is its last
element (every chain reachable through the map is non-empty, see the
registry invariants). -/
def GetFinalRedirectTarget (reg : RedirectRegistry)
    (resource : Option Resource) : Option Resource :=
  match GetRedirectChainOrNull reg resource with
  | some chain => chain.getLast?
  | none => resource

/-- Loop of `BuildFixUpRedirectChain`: collect the leading REDIRECT
resources and then one non-REDIRECT terminus, the latter only when `i > 0`. -/
def BuildFixUpRedirectChainLoop : List Resource → Nat → List Resource
  | [], _ => []
  | r :: rest, i =>
    if r.resourceType = ResourceType.REDIRECT then
      r :: BuildFixUpRedirectChainLoop rest (i + 1)
    else if i > 0 then [r] else []

/-- Mirror of `BuildFixUpRedirectChain`: walk the request-ordered view
from the front; nothing is built when there is no view. -/
def BuildFixUpRedirectChain (col : ResourceCollection) : List Resource :=
  match GetResourcesInRequestOrder col with
  | none => []
  | some rs => BuildFixUpRedirectChainLoop rs 0

/-- Removal loop of `RedirectRegistry::Init`: drop every non-empty chain
whose first element occurs in the fix-up chain, erasing its members from
the resource-to-chain map; empty chains are kept. -/
def RemoveChainsLoop (fixup : List Resource) :
    List (List Resource) → List (Resource × List Resource) →
    List (List Resource) × List (Resource × List Resource)
  | [], m => ([], m)
  | chain :: rest, m =>
    match chain with
    | [] =>
      let r := RemoveChainsLoop fixup rest m
      (chain :: r.1, r.2)
    | c0 :: _ =>
      if fixup.contains c0 then
        let m2 := chain.foldl (fun acc res => assocErase acc res) m
        RemoveChainsLoop fixup rest m2
      else
        let r := RemoveChainsLoop fixup rest m
        (chain :: r.1, r.2)

/-- First phase of `RedirectRegistry::Init`: build the chains when the
registry is uninitialized and the collection frozen. -/
def RedirectRegistryInitBase (reg : RedirectRegistry)
    (col : ResourceCollection) : RedirectRegistry :=
  if ¬ reg.initialized ∧ col.frozen then
    { BuildRedirectChains reg col with initialized := true }
  else reg

/-- Mirror of `RedirectRegistry::Init`: build the chains, then run the
landing-page fix-up pass. -/
def RedirectRegistryInit (reg : RedirectRegistry)
    (col : ResourceCollection) : RedirectRegistry :=
  let reg := RedirectRegistryInitBase reg col
  let fixupChain := BuildFixUpRedirectChain col
  if fixupChain = [] then reg
  else
    let primaryResource :=
      match GetPrimaryResourceOrNull col with
      | some p => some p
      | none => fixupChain.getLast?
    let primaryChain := GetRedirectChainOrNull reg primaryResource
    let doReplace :=
      match primaryChain with
      | none => true
      | some pc => pc.length < fixupChain.length
    if doReplace then
      let r := RemoveChainsLoop fixupChain reg.redirectChains
        reg.resourceToRedirectChainMap
      let chains := r.1 ++ [fixupChain]
      let m := fixupChain.foldl
        (fun acc res => assocUpsert acc res fixupChain) r.2
      { redirectChains := chains, resourceToRedirectChainMap := m,
        initialized := reg.initialized }
    else reg

/-- Definition following the claim's words (for refutation of C6): the
source URLs of redirect resources in the order they are FIRST OBSERVED
during the insertion-order scan. -/
def firstObservedSourceOrder (rs : List Resource) : List String :=
  rs.foldl
    (fun acc r =>
      if GetRedirectedUrl r ≠ "" ∧ ¬ acc.contains r.requestUrl then
        acc ++ [r.requestUrl]
      else acc)
    []

/-!
Part 3 embeds `ImageConverter::GetSmallestOfPngJpegWebp` and
`SelectSmallerImage` of image_converter.cc.  The PNG/WebP/JPEG conversion
routines call into libpng/libwebp/libjpeg and are external collaborators;
their outcomes are supplied by an `ImageEnv` oracle (`none` = the
conversion failed, `some s` = it succeeded producing `s`).  Dereferencing
a possibly-NULL pointer is made explicit: the embedding returns
`nullDeref p` at the program point where the C++ dereferences the null
pointer `p` (undefined behaviour in the source).  The C++ `double`
ratio 0.8 is modelled as the exact rational 4/5; no claim settled here
depends on the rounding of 0.8 to a binary double.
-/

/-- Mirror of `ImageConverter::ImageType`. -/
inductive ImageType where
  | IMAGE_NONE : ImageType
  | IMAGE_PNG : ImageType
  | IMAGE_JPEG : ImageType
  | IMAGE_WEBP : ImageType
deriving DecidableEq

/-- Opaque JPEG compression options (contents never inspected by the
embedded code). -/
structure JpegCompressionOptions where
  progressive : Bool := false
deriving DecidableEq

/-- Opaque WebP configuration (contents never inspected by the embedded
code). -/
structure WebpConfiguration where
  lossless : Bool := false
deriving DecidableEq

/-- Minimum savings ratio before a JPEG replaces a lossless image
(C++ `double` 0.8). -/
def kMinJpegSavingsRatio : ℚ := 4 / 5

/-- Minimum savings ratio before a lossy WebP replaces a lossless image
(C++ `double` 0.8). -/
def kMinWebpSavingsRatio : ℚ := 4 / 5

/-- Mirror of `SelectSmallerImage`: update `(best_image_type, best_image)`
when the new image is non-empty and either no best exists yet or the new
one beats the threshold; `best.2 = none` models `best_image == NULL`. -/
def SelectSmallerImage (newImageType : ImageType) (newImage : String)
    (thresholdRatio : ℚ) (best : ImageType × Option String) :
    ImageType × Option String :=
  let newImageSize := newImage.length
  let beatsBest : Bool :=
    match best.2 with
    | some bi =>
      decide ((newImageSize : ℚ) < (bi.length : ℚ) * thresholdRatio)
    | none => false
  if 0 < newImageSize ∧
      (best.1 = ImageType.IMAGE_NONE ∨
        (newImageType ≠ ImageType.IMAGE_NONE ∧ beatsBest = true)) then
    (newImageType, some newImage)
  else best

/-- Which null pointer a crashing execution dereferences. -/
inductive NullPtrDeref where
  | jpegOptions : NullPtrDeref
  | webpWriter : NullPtrDeref
  | bestLossyImage : NullPtrDeref
deriving DecidableEq

/-- Outcome of `GetSmallestOfPngJpegWebp`: the returned best type and the
bytes assigned to `*out`, or the null pointer the execution dereferences. -/
inductive ImgOutcome where
  | ok (bestImageType : ImageType) (out : String) : ImgOutcome
  | nullDeref (p : NullPtrDeref) : ImgOutcome
deriving DecidableEq

/-- Oracle for the external conversion collaborators. -/
structure ImageEnv where
  webpLossless : Option String
  webpWriterAllocated : Bool
  webpLossy : Option String
  pngOut : Option String
  jpegConversion : Option String

/-- Selection phase of `GetSmallestOfPngJpegWebp` (the straight-line code
from the first `SelectSmallerImage` call to the return), as a function of
the four candidate strings.  The dereference of `best_lossy_image` in the
final `SelectSmallerImage` call is unconditional in the source. -/
def GetSmallestSelectionPhase (input webpLosslessOut pngOut webpLossyOut
    jpegOut : String) : ImgOutcome :=
  let bl0 := SelectSmallerImage ImageType.IMAGE_NONE input 1
    (ImageType.IMAGE_NONE, none)
  let bl1 := SelectSmallerImage ImageType.IMAGE_WEBP webpLosslessOut 1 bl0
  let bestLossless := SelectSmallerImage ImageType.IMAGE_PNG pngOut 1 bl1
  let ly0 := SelectSmallerImage ImageType.IMAGE_WEBP webpLossyOut 1
    (ImageType.IMAGE_NONE, none)
  let bestLossy := SelectSmallerImage ImageType.IMAGE_JPEG jpegOut 1 ly0
  let thresholdRatio :=
    if bestLossy.1 = ImageType.IMAGE_WEBP then kMinWebpSavingsRatio
    else kMinJpegSavingsRatio
  match bestLossy.2 with
  | none => ImgOutcome.nullDeref NullPtrDeref.bestLossyImage
  | some lossyImage =>
    let best := SelectSmallerImage bestLossy.1 lossyImage thresholdRatio
      bestLossless
    ImgOutcome.ok best.1
      (match best.2 with
       | some s => s
       | none => input)

/-- Mirror of `ImageConverter::GetSmallestOfPngJpegWebp`.  Note the
inverted guard from the source: `ConvertPngToJpeg(..., *jpeg_options, ...)`
is evaluated exactly when `jpeg_options == NULL` (dereferencing the null
pointer), and is never called when options are provided, so `jpeg_out`
keeps its initial empty value and `env.jpegConversion` is never
consulted. -/
def GetSmallestOfPngJpegWebp (env : ImageEnv) (input : String)
    (jpegOptions : Option JpegCompressionOptions)
    (webpConfig : Option WebpConfiguration) : ImgOutcome :=
  let webpLosslessOut :=
    match env.webpLossless with
    | some s => s
    | none => ""
  if webpConfig.isSome ∧ ¬ env.webpWriterAllocated then
    ImgOutcome.nullDeref NullPtrDeref.webpWriter
  else
    let webpLossyOut :=
      if webpConfig.isSome then
        match env.webpLossy with
        | some s => s
        | none => ""
      else ""
    let pngOut :=
      match env.pngOut with
      | some s => s
      | none => ""
    match jpegOptions with
    | none => ImgOutcome.nullDeref NullPtrDeref.jpegOptions
    | some _ =>
      let jpegOut := ""
      GetSmallestSelectionPhase input webpLosslessOut pngOut webpLossyOut
        jpegOut

/-!
Concrete instances used by counterexamples and witnesses.
-/

/-- A resource whose request URL carries a fragment (C5). -/
def c5Resource : Resource :=
  ⟨"http://a/x#f", "a", 200, some 0, ResourceType.HTML, ""⟩

/-- A fragment-free resource (C5 witness). -/
def c5W : Resource := ⟨"u", "h", 200, some 0, ResourceType.HTML, ""⟩

/-- A redirect b -> t, added first (C6). -/
def c6ResB : Resource := ⟨"b", "hb", 302, some 0, ResourceType.REDIRECT, "t"⟩

/-- A redirect a -> t, added second (C6). -/
def c6ResA : Resource := ⟨"a", "ha", 302, some 1, ResourceType.REDIRECT, "t"⟩

/-- Resources for the C7 witness registry. -/
def c7A : Resource := ⟨"a", "h", 302, some 0, ResourceType.REDIRECT, "b"⟩

/-- Terminus resource of the C7 witness chain. -/
def c7B : Resource := ⟨"b", "h", 200, some 1, ResourceType.HTML, ""⟩

/-- A resource outside the C7 witness registry's map. -/
def c7C : Resource := ⟨"c", "h", 200, some 2, ResourceType.HTML, ""⟩

/-- A registry with the single chain [c7A, c7B] (C7 witness). -/
def c7Reg : RedirectRegistry :=
  ⟨[[c7A, c7B]], [(c7A, [c7A, c7B]), (c7B, [c7A, c7B])], true⟩

/-- A collection whose request-order view starts with a non-redirect
(C10 witness). -/
def c10Col : ResourceCollection :=
  ⟨[c7B], [("b", c7B)], [("h", [c7B])], [c7B], "", true, fun _ => true⟩

/-- An environment in which every external conversion succeeds (C8). -/
def c8Env : ImageEnv := ⟨some "LL", true, some "YY", some "PP", some "JJ"⟩

/-!
Simulation machinery: the control flow of the minifier never inspects the
output sink, so two runs over the same input whose outputs are related by
any relation preserved by the sink operations advance in lock-step: same
index, same whitespace state, same previous token, same error.  The
collapse-strings flags of the two runs may even differ (they only select
which sink operations run inside `ConsumeString`), provided the output
relation tolerates the mixed operations; this is recorded by the two
`mix` hypotheses, which are only required when the flags differ.
-/

/-- Relation between the states of two lock-step minifier runs: outputs
related by `R`, all control fields equal, collapse flags pinned. -/
def StRel {α β : Type} (R : α → β → Prop) (c₁ c₂ : Bool)
    (s₁ : MinState α) (s₂ : MinState β) : Prop :=
  R s₁.output s₂.output ∧ s₁.whitespace = s₂.whitespace ∧
    s₁.prevToken = s₂.prevToken ∧ s₁.error = s₂.error ∧
    s₁.collapseString = c₁ ∧ s₂.collapseString = c₂

/-- Hypotheses on the two output sinks for the lock-step simulation. -/
structure SimHyp {α β : Type} (C₁ : OutputConsumer α) (C₂ : OutputConsumer β)
    (R : α → β → Prop) (c₁ c₂ : Bool) : Prop where
  push : ∀ a b c, R a b → R (C₁.push a c) (C₂.push b c)
  append : ∀ a b l, R a b → R (C₁.append a l) (C₂.append b l)
  mixPA : c₁ ≠ c₂ → ∀ a b q l, R a b →
    R (C₁.push (C₁.push a q) q) (C₂.append b l)
  mixAP : c₁ ≠ c₂ → ∀ a b q l, R a b →
    R (C₁.append a l) (C₂.push (C₂.push b q) q)

section Simulation

variable {α β : Type} {C₁ : OutputConsumer α} {C₂ : OutputConsumer β}
variable {R : α → β → Prop} {c₁ c₂ : Bool}

theorem StRel.changeToken (h : SimHyp C₁ C₂ R c₁ c₂) {s₁ : MinState α}
    {s₂ : MinState β} (hs : StRel R c₁ c₂ s₁ s₂) (t : Int) :
    StRel R c₁ c₂ (ChangeToken C₁ s₁ t) (ChangeToken C₂ s₂ t) := by
  obtain ⟨hR, hws, hpv, herr, hc1, hc2⟩ := hs
  unfold ChangeToken
  rw [hws, hpv]
  by_cases hc : s₂.whitespace = Whitespace.LINEBREAK ∧
      ¬ CanSuppressLinebreak s₂.prevToken t
  · simp only [if_pos hc]
    exact ⟨h.push _ _ _ hR, rfl, rfl, herr, hc1, hc2⟩
  · simp only [if_neg hc]
    exact ⟨hR, rfl, rfl, herr, hc1, hc2⟩

theorem StRel.insertSpaceIfNeeded (h : SimHyp C₁ C₂ R c₁ c₂)
    {s₁ : MinState α} {s₂ : MinState β} (hs : StRel R c₁ c₂ s₁ s₂) :
    StRel R c₁ c₂ (InsertSpaceIfNeeded C₁ s₁) (InsertSpaceIfNeeded C₂ s₂) := by
  obtain ⟨hR, hws, hpv, herr, hc1, hc2⟩ := hs
  unfold InsertSpaceIfNeeded
  rw [hws]
  cases s₂.whitespace
  · exact ⟨hR, rfl, hpv, herr, hc1, hc2⟩
  · exact ⟨h.push _ _ _ hR, rfl, hpv, herr, hc1, hc2⟩
  · exact ⟨h.push _ _ _ hR, rfl, hpv, herr, hc1, hc2⟩

theorem StRel.consumeStringLoop (h : SimHyp C₁ C₂ R c₁ c₂)
    (input : List Nat) (b q : Nat) :
    ∀ (fuel i : Nat) (s₁ : MinState α) (s₂ : MinState β),
    StRel R c₁ c₂ s₁ s₂ →
    (ConsumeStringLoop C₁ input b q fuel i s₁).1 =
      (ConsumeStringLoop C₂ input b q fuel i s₂).1 ∧
    StRel R c₁ c₂ (ConsumeStringLoop C₁ input b q fuel i s₁).2
      (ConsumeStringLoop C₂ input b q fuel i s₂).2 := by
  intro fuel
  induction fuel with
  | zero => intro i s₁ s₂ hs; exact ⟨rfl, hs⟩
  | succ fuel ih =>
    intro i s₁ s₂ hs
    unfold ConsumeStringLoop
    by_cases hlen : i < input.length
    · simp only [if_pos hlen]
      by_cases h92 : input.getD i 0 = 92
      · simp only [if_pos h92]
        exact ih _ _ _ hs
      · simp only [if_neg h92]
        by_cases hq : input.getD i 0 = q
        · simp only [if_pos hq]
          have hrel := hs.changeToken h kStringToken
          obtain ⟨hR, hws, hpv, herr, hc1, hc2⟩ := hrel
          rw [hc1, hc2]
          cases c₁ <;> cases c₂ <;>
            simp only [Bool.false_eq_true, if_false, if_true]
          · exact ⟨trivial, h.append _ _ _ hR, hws, hpv, herr, rfl, rfl⟩
          · exact ⟨trivial, h.mixAP (by decide) _ _ _ _ hR, hws, hpv, herr,
              rfl, rfl⟩
          · exact ⟨trivial, h.mixPA (by decide) _ _ _ _ hR, hws, hpv, herr,
              rfl, rfl⟩
          · exact ⟨trivial, h.push _ _ _ (h.push _ _ _ hR), hws, hpv, herr,
              rfl, rfl⟩
        · simp only [if_neg hq]
          exact ih _ _ _ hs
    · simp only [if_neg hlen]
      obtain ⟨hR, hws, hpv, herr, hc1, hc2⟩ := hs
      exact ⟨trivial, hR, hws, hpv, rfl, hc1, hc2⟩

theorem StRel.consumeRegexLoop (h : SimHyp C₁ C₂ R c₁ c₂)
    (input : List Nat) (b : Nat) :
    ∀ (fuel i : Nat) (wb : Bool) (s₁ : MinState α) (s₂ : MinState β),
    StRel R c₁ c₂ s₁ s₂ →
    (ConsumeRegexLoop C₁ input b fuel i wb s₁).1 =
      (ConsumeRegexLoop C₂ input b fuel i wb s₂).1 ∧
    StRel R c₁ c₂ (ConsumeRegexLoop C₁ input b fuel i wb s₁).2
      (ConsumeRegexLoop C₂ input b fuel i wb s₂).2 := by
  intro fuel
  induction fuel with
  | zero => intro i wb s₁ s₂ hs; exact ⟨rfl, hs⟩
  | succ fuel ih =>
    intro i wb s₁ s₂ hs
    unfold ConsumeRegexLoop
    by_cases hlen : i < input.length
    · simp only [if_pos hlen]
      by_cases h92 : input.getD i 0 = 92
      · simp only [if_pos h92]
        exact ih _ _ _ _ hs
      · simp only [if_neg h92]
        by_cases h47 : input.getD i 0 = 47
        · simp only [if_pos h47]
          by_cases hwb : wb = false
          · simp only [if_pos hwb]
            obtain ⟨hR0, hws0, hpv0, herr0, hc10, hc20⟩ := hs
            rw [hpv0]
            by_cases hpr : s₂.prevToken = 47
            · simp only [if_pos hpr]
              have hrel := (StRel.insertSpaceIfNeeded h
                ⟨hR0, hws0, hpv0, herr0, hc10, hc20⟩).changeToken h kRegexToken
              obtain ⟨hR, hws, hpv, herr, hc1, hc2⟩ := hrel
              exact ⟨trivial, h.append _ _ _ hR, hws, hpv, herr, hc1, hc2⟩
            · simp only [if_neg hpr]
              have hrel := StRel.changeToken h
                ⟨hR0, hws0, hpv0, herr0, hc10, hc20⟩ kRegexToken
              obtain ⟨hR, hws, hpv, herr, hc1, hc2⟩ := hrel
              exact ⟨trivial, h.append _ _ _ hR, hws, hpv, herr, hc1, hc2⟩
          · simp only [if_neg hwb]
            exact ih _ _ _ _ hs
        · simp only [if_neg h47]
          by_cases h91 : input.getD i 0 = 91
          · simp only [if_pos h91]
            exact ih _ _ _ _ hs
          · simp only [if_neg h91]
            by_cases h93 : input.getD i 0 = 93
            · simp only [if_pos h93]
              exact ih _ _ _ _ hs
            · simp only [if_neg h93]
              by_cases h10 : input.getD i 0 = 10
              · simp only [if_pos h10]
                obtain ⟨hR, hws, hpv, herr, hc1, hc2⟩ := hs
                exact ⟨trivial, hR, hws, hpv, rfl, hc1, hc2⟩
              · simp only [if_neg h10]
                exact ih _ _ _ _ hs
    · simp only [if_neg hlen]
      obtain ⟨hR, hws, hpv, herr, hc1, hc2⟩ := hs
      exact ⟨trivial, hR, hws, hpv, rfl, hc1, hc2⟩

theorem StRel.consumeBlockCommentLoop (h : SimHyp C₁ C₂ R c₁ c₂)
    (input : List Nat) (mayBeCCC : Bool) (b : Nat) :
    ∀ (fuel i : Nat) (s₁ : MinState α) (s₂ : MinState β),
    StRel R c₁ c₂ s₁ s₂ →
    (ConsumeBlockCommentLoop C₁ input mayBeCCC b fuel i s₁).1 =
      (ConsumeBlockCommentLoop C₂ input mayBeCCC b fuel i s₂).1 ∧
    StRel R c₁ c₂ (ConsumeBlockCommentLoop C₁ input mayBeCCC b fuel i s₁).2
      (ConsumeBlockCommentLoop C₂ input mayBeCCC b fuel i s₂).2 := by
  intro fuel
  induction fuel with
  | zero => intro i s₁ s₂ hs; exact ⟨rfl, hs⟩
  | succ fuel ih =>
    intro i s₁ s₂ hs
    unfold ConsumeBlockCommentLoop
    by_cases hlen : i < input.length
    · simp only [if_pos hlen]
      by_cases hstar : input.getD i 0 = 42 ∧ Peek input i = 47
      · simp only [if_pos hstar]
        by_cases hccc : mayBeCCC = true ∧ input.getD (i + 2 - 3) 0 = 64
        · simp only [if_pos hccc]
          have hrel := hs.changeToken h kCCCommentToken
          obtain ⟨hR, hws, hpv, herr, hc1, hc2⟩ := hrel
          exact ⟨trivial, h.append _ _ _ hR, hws, hpv, herr, hc1, hc2⟩
        · simp only [if_neg hccc]
          obtain ⟨hR, hws, hpv, herr, hc1, hc2⟩ := hs
          rw [hws]
          by_cases hno : s₂.whitespace = Whitespace.NO_WHITESPACE
          · simp only [if_pos hno]
            exact ⟨trivial, hR, rfl, hpv, herr, hc1, hc2⟩
          · simp only [if_neg hno]
            exact ⟨trivial, hR, hws, hpv, herr, hc1, hc2⟩
      · simp only [if_neg hstar]
        exact ih _ _ _ hs
    · simp only [if_neg hlen]
      obtain ⟨hR, hws, hpv, herr, hc1, hc2⟩ := hs
      exact ⟨trivial, hR, hws, hpv, rfl, hc1, hc2⟩

theorem StRel.consumeString (h : SimHyp C₁ C₂ R c₁ c₂) (input : List Nat)
    (i : Nat) {s₁ : MinState α} {s₂ : MinState β} (hs : StRel R c₁ c₂ s₁ s₂) :
    (ConsumeString C₁ input i s₁).1 = (ConsumeString C₂ input i s₂).1 ∧
    StRel R c₁ c₂ (ConsumeString C₁ input i s₁).2
      (ConsumeString C₂ input i s₂).2 := by
  unfold ConsumeString
  exact StRel.consumeStringLoop h input _ _ _ _ _ _ hs

theorem StRel.consumeRegex (h : SimHyp C₁ C₂ R c₁ c₂) (input : List Nat)
    (i : Nat) {s₁ : MinState α} {s₂ : MinState β} (hs : StRel R c₁ c₂ s₁ s₂) :
    (ConsumeRegex C₁ input i s₁).1 = (ConsumeRegex C₂ input i s₂).1 ∧
    StRel R c₁ c₂ (ConsumeRegex C₁ input i s₁).2
      (ConsumeRegex C₂ input i s₂).2 := by
  unfold ConsumeRegex
  exact StRel.consumeRegexLoop h input _ _ _ _ _ _ hs

theorem StRel.consumeBlockComment (h : SimHyp C₁ C₂ R c₁ c₂)
    (input : List Nat) (i : Nat) {s₁ : MinState α} {s₂ : MinState β}
    (hs : StRel R c₁ c₂ s₁ s₂) :
    (ConsumeBlockComment C₁ input i s₁).1 =
      (ConsumeBlockComment C₂ input i s₂).1 ∧
    StRel R c₁ c₂ (ConsumeBlockComment C₁ input i s₁).2
      (ConsumeBlockComment C₂ input i s₂).2 := by
  unfold ConsumeBlockComment
  exact StRel.consumeBlockCommentLoop h input _ _ _ _ _ _ hs

theorem StRel.consumeLineComment (input : List Nat) (i : Nat)
    {s₁ : MinState α} {s₂ : MinState β} (hs : StRel R c₁ c₂ s₁ s₂) :
    (ConsumeLineComment input i s₁).1 = (ConsumeLineComment input i s₂).1 ∧
    StRel R c₁ c₂ (ConsumeLineComment input i s₁).2
      (ConsumeLineComment input i s₂).2 := by
  obtain ⟨hR, hws, hpv, herr, hc1, hc2⟩ := hs
  exact ⟨rfl, hR, rfl, hpv, herr, hc1, hc2⟩

theorem StRel.consumeNameOrNumber (h : SimHyp C₁ C₂ R c₁ c₂)
    (input : List Nat) (i : Nat) {s₁ : MinState α} {s₂ : MinState β}
    (hs : StRel R c₁ c₂ s₁ s₂) :
    (ConsumeNameOrNumber C₁ input i s₁).1 =
      (ConsumeNameOrNumber C₂ input i s₂).1 ∧
    StRel R c₁ c₂ (ConsumeNameOrNumber C₁ input i s₁).2
      (ConsumeNameOrNumber C₂ input i s₂).2 := by
  unfold ConsumeNameOrNumber
  obtain ⟨hR0, hws0, hpv0, herr0, hc10, hc20⟩ := hs
  rw [hpv0]
  by_cases hpr : s₂.prevToken = kNameNumberToken ∨
      s₂.prevToken = kKeywordCanPrecedeRegExToken ∨
      s₂.prevToken = kRegexToken
  · simp only [if_pos hpr]
    have hrel := (StRel.insertSpaceIfNeeded h
      ⟨hR0, hws0, hpv0, herr0, hc10, hc20⟩).changeToken h
      (if CanKeywordPrecedeRegEx
          (ConsumeNameOrNumberLoop input (input.length + 1) i []).2 then
        kKeywordCanPrecedeRegExToken
      else kNameNumberToken)
    obtain ⟨hR, hws, hpv, herr, hc1, hc2⟩ := hrel
    exact ⟨trivial, h.append _ _ _ hR, hws, hpv, herr, hc1, hc2⟩
  · simp only [if_neg hpr]
    have hrel := StRel.changeToken h
      ⟨hR0, hws0, hpv0, herr0, hc10, hc20⟩
      (if CanKeywordPrecedeRegEx
          (ConsumeNameOrNumberLoop input (input.length + 1) i []).2 then
        kKeywordCanPrecedeRegExToken
      else kNameNumberToken)
    obtain ⟨hR, hws, hpv, herr, hc1, hc2⟩ := hrel
    exact ⟨trivial, h.append _ _ _ hR, hws, hpv, herr, hc1, hc2⟩

theorem StRel.minifyLoop (h : SimHyp C₁ C₂ R c₁ c₂) (input : List Nat) :
    ∀ (fuel i : Nat) (s₁ : MinState α) (s₂ : MinState β),
    StRel R c₁ c₂ s₁ s₂ →
    StRel R c₁ c₂ (MinifyLoop C₁ input fuel i s₁)
      (MinifyLoop C₂ input fuel i s₂) := by
  intro fuel
  induction fuel with
  | zero => intro i s₁ s₂ hs; exact hs
  | succ fuel ih =>
    intro i s₁ s₂ hs
    obtain ⟨hR0, hws0, hpv0, herr0, hc10, hc20⟩ := hs
    have hs' : StRel R c₁ c₂ s₁ s₂ := ⟨hR0, hws0, hpv0, herr0, hc10, hc20⟩
    unfold MinifyLoop
    rw [herr0, hws0, hpv0, hc10, hc20]
    by_cases hrun : i < input.length ∧ s₂.error = none
    · simp only [if_pos hrun]
      by_cases hnl : input.getD i 0 = 10 ∨ input.getD i 0 = 13
      · simp only [if_pos hnl]
        exact ih _ _ _ ⟨hR0, rfl, rfl, rfl, rfl, rfl⟩
      · simp only [if_neg hnl]
        by_cases hsp : input.getD i 0 = 32 ∨ input.getD i 0 = 9
        · simp only [if_pos hsp]
          by_cases hno : s₂.whitespace = Whitespace.NO_WHITESPACE
          · simp only [if_pos hno]
            exact ih _ _ _ ⟨hR0, rfl, rfl, rfl, rfl, rfl⟩
          · simp only [if_neg hno]
            exact ih _ _ _ hs'
        · simp only [if_neg hsp]
          by_cases hquo : input.getD i 0 = 39 ∨ input.getD i 0 = 34 ∨
              input.getD i 0 = 96
          · simp only [if_pos hquo]
            have hp := StRel.consumeString h input i hs'
            rw [hp.1]
            exact ih _ _ _ hp.2
          · simp only [if_neg hquo]
            by_cases hsl : input.getD i 0 = 47
            · simp only [if_pos hsl]
              by_cases hn47 : Peek input i = 47
              · simp only [if_pos hn47]
                have hp := StRel.consumeLineComment input i hs'
                rw [hp.1]
                exact ih _ _ _ hp.2
              · simp only [if_neg hn47]
                by_cases hn42 : Peek input i = 42
                · simp only [if_pos hn42]
                  have hp := StRel.consumeBlockComment h input i hs'
                  rw [hp.1]
                  exact ih _ _ _ hp.2
                · simp only [if_neg hn42]
                  by_cases hpe : EndsPrimaryExpression s₂.prevToken = true
                  · simp only [if_pos hpe]
                    have hrel := hs'.changeToken h 47
                    obtain ⟨hR, hws, hpv, herr, hc1, hc2⟩ := hrel
                    exact ih _ _ _ ⟨h.push _ _ _ hR, hws, hpv, herr, hc1, hc2⟩
                  · simp only [if_neg hpe]
                    have hp := StRel.consumeRegex h input i hs'
                    rw [hp.1]
                    exact ih _ _ _ hp.2
            · simp only [if_neg hsl]
              by_cases hid : IsIdentifierChar (tokOfByte (input.getD i 0)) =
                  true
              · simp only [if_pos hid]
                have hp := StRel.consumeNameOrNumber h input i hs'
                rw [hp.1]
                exact ih _ _ _ hp.2
              · simp only [if_neg hid]
                by_cases hsgml : input.getD i 0 = 60 ∧
                    startsWithFrom input i [60, 33, 45, 45] = true
                · simp only [if_pos hsgml]
                  have hp := StRel.consumeLineComment input i hs'
                  rw [hp.1]
                  exact ih _ _ _ hp.2
                · simp only [if_neg hsgml]
                  by_cases harr : input.getD i 0 = 45 ∧
                      (s₂.whitespace = Whitespace.LINEBREAK ∨
                        s₂.prevToken = kStartToken) ∧
                      startsWithFrom input i [45, 45, 62] = true
                  · simp only [if_pos harr]
                    have hp := StRel.consumeLineComment input i hs'
                    rw [hp.1]
                    exact ih _ _ _ hp.2
                  · simp only [if_neg harr]
                    by_cases hpp : input.getD i 0 = 43 ∧ Peek input i = 43
                    · simp only [if_pos hpp]
                      by_cases hj : s₂.prevToken = 43 ∨
                          s₂.prevToken = kPlusPlusToken
                      · simp only [if_pos hj]
                        have hrel := (hs'.insertSpaceIfNeeded h).changeToken h
                          kPlusPlusToken
                        obtain ⟨hR, hws, hpv, herr, hc1, hc2⟩ := hrel
                        exact ih _ _ _
                          ⟨h.append _ _ _ hR, hws, hpv, herr, hc1, hc2⟩
                      · simp only [if_neg hj]
                        have hrel := hs'.changeToken h kPlusPlusToken
                        obtain ⟨hR, hws, hpv, herr, hc1, hc2⟩ := hrel
                        exact ih _ _ _
                          ⟨h.append _ _ _ hR, hws, hpv, herr, hc1, hc2⟩
                    · simp only [if_neg hpp]
                      by_cases hmm : input.getD i 0 = 45 ∧ Peek input i = 45
                      · simp only [if_pos hmm]
                        by_cases hj : s₂.prevToken = 45 ∨
                            s₂.prevToken = kMinusMinusToken ∨
                            s₂.prevToken = 33
                        · simp only [if_pos hj]
                          have hrel := (hs'.insertSpaceIfNeeded h).changeToken
                            h kMinusMinusToken
                          obtain ⟨hR, hws, hpv, herr, hc1, hc2⟩ := hrel
                          exact ih _ _ _
                            ⟨h.append _ _ _ hR, hws, hpv, herr, hc1, hc2⟩
                        · simp only [if_neg hj]
                          have hrel := hs'.changeToken h kMinusMinusToken
                          obtain ⟨hR, hws, hpv, herr, hc1, hc2⟩ := hrel
                          exact ih _ _ _
                            ⟨h.append _ _ _ hR, hws, hpv, herr, hc1, hc2⟩
                      · simp only [if_neg hmm]
                        by_cases hj : (s₂.prevToken = tokOfByte (input.getD i 0) ∧
                              (input.getD i 0 = 43 ∨ input.getD i 0 = 45)) ∨
                            (s₂.prevToken = kPlusPlusToken ∧
                              input.getD i 0 = 43) ∨
                            (s₂.prevToken = kMinusMinusToken ∧
                              input.getD i 0 = 45) ∨
                            (s₂.prevToken = 60 ∧ input.getD i 0 = 33) ∨
                            (s₂.prevToken = 33 ∧ input.getD i 0 = 45)
                        · simp only [if_pos hj]
                          have hrel := (hs'.insertSpaceIfNeeded h).changeToken
                            h (tokOfByte (input.getD i 0))
                          obtain ⟨hR, hws, hpv, herr, hc1, hc2⟩ := hrel
                          exact ih _ _ _
                            ⟨h.push _ _ _ hR, hws, hpv, herr, hc1, hc2⟩
                        · simp only [if_neg hj]
                          have hrel := hs'.changeToken h
                            (tokOfByte (input.getD i 0))
                          obtain ⟨hR, hws, hpv, herr, hc1, hc2⟩ := hrel
                          exact ih _ _ _
                            ⟨h.push _ _ _ hR, hws, hpv, herr, hc1, hc2⟩
    · simp only [if_neg hrun]
      exact hs'

end Simulation

/-- Size-sink refinement: for either collapse flag, the size-sink run
reports exactly the byte length of the string-sink run's output (and the
two runs fail together). -/
theorem sizeSink_eq_map_length (collapse : Bool) (input : List Nat) :
    GetOutput SizeConsumer 0 collapse input =
      (GetOutput StringConsumer [] collapse input).map List.length := by
  have hsim : SimHyp StringConsumer SizeConsumer
      (fun (l : List Nat) (n : Nat) => n = l.length) collapse collapse :=
    ⟨fun a b c hr => by simp [StringConsumer, SizeConsumer, hr],
     fun a b l hr => by simp [StringConsumer, SizeConsumer, hr],
     fun hne => absurd rfl hne, fun hne => absurd rfl hne⟩
  have hrel := StRel.minifyLoop hsim input (input.length + 1) 0
    ⟨[], .NO_WHITESPACE, kStartToken, none, collapse⟩
    ⟨0, .NO_WHITESPACE, kStartToken, none, collapse⟩
    ⟨rfl, rfl, rfl, rfl, rfl, rfl⟩
  obtain ⟨hR, _, _, herr, _, _⟩ := hrel
  simp only [GetOutput, RunMinifier]
  rw [← herr]
  by_cases he : (MinifyLoop StringConsumer input (input.length + 1) 0
      ⟨[], .NO_WHITESPACE, kStartToken, none, collapse⟩).error = none
  · simp only [if_pos he]
    rw [hR]
    rfl
  · simp only [if_neg he]
    rfl

/-- Whether the minifier fails does not depend on the collapse-strings
flag: the flag only selects which sink operations run. -/
theorem error_indep_collapse (input : List Nat) :
    (RunMinifier StringConsumer [] false input).error =
      (RunMinifier StringConsumer [] true input).error := by
  have hsim : SimHyp StringConsumer StringConsumer
      (fun (_ : List Nat) (_ : List Nat) => True) false true :=
    ⟨fun _ _ _ _ => trivial, fun _ _ _ _ => trivial,
     fun _ _ _ _ _ _ => trivial, fun _ _ _ _ _ _ => trivial⟩
  have hrel := StRel.minifyLoop hsim input (input.length + 1) 0
    ⟨[], .NO_WHITESPACE, kStartToken, none, false⟩
    ⟨[], .NO_WHITESPACE, kStartToken, none, true⟩
    ⟨trivial, rfl, rfl, rfl, rfl, rfl⟩
  exact hrel.2.2.2.1

/-- C1 counterexample: `MinifyJs` applied to the 22-byte input
`function () { foo(); }` does NOT produce the pinned byte string
`\nfunction(){foo();}` of the claim.  At the start of the input the
whitespace state is `NO_WHITESPACE`, so `ChangeToken` emits no linebreak
before the first token; the pinned string with the leading newline is the
output of JSMin (used by the `MinifyJavaScript` rule's test), a different
minifier that prepends a newline. -/
theorem c1_counterexample :
    MinifyJs (strBytes "function () \x7b foo(); \x7d") ≠
      some (strBytes "\nfunction()\x7bfoo();\x7d") := by decide

/-- C1 (amended): `MinifyJs` applied to the 22-byte input
`function () { foo(); }` succeeds and produces exactly the 18-byte string
`function(){foo();}`, with no leading linebreak. -/
theorem c1_minify_pinned_output :
    MinifyJs (strBytes "function () \x7b foo(); \x7d") =
      some (strBytes "function()\x7bfoo();\x7d") := by decide

/-- C2: minifier idempotence fails on the code.  On the input `1/ *` the
first call succeeds and produces `1/*` (the division slash and the `*`
are joined when the space is removed, creating a block-comment opener),
and the second call fails with an unterminated-comment error instead of
succeeding with the same output. -/
theorem c2_idempotence_failing_input :
    MinifyJs (strBytes "1/ *") = some (strBytes "1/*") ∧
      MinifyJs (strBytes "1/*") = none ∧
      MinifyErrorOf (strBytes "1/*") =
        some MinifyErrCause.unterminatedComment := by decide

/-- C3: size-sink equivalence.  `GetMinifiedJsSize` succeeds exactly when
`MinifyJs` succeeds and reports the byte length of its output, and
likewise `GetMinifiedStringCollapsedJsSize` agrees with
`MinifyJsAndCollapseStrings`. -/
theorem c3_size_sink_equivalence (input : List Nat) :
    GetMinifiedJsSize input = (MinifyJs input).map List.length ∧
    GetMinifiedStringCollapsedJsSize input =
      (MinifyJsAndCollapseStrings input).map List.length :=
  ⟨sizeSink_eq_map_length false input, sizeSink_eq_map_length true input⟩

/-- C4: error conditions.  `MinifyJs` fails exactly when the run's error
cause is set, and the only possible causes are the four tagged at the
`error_ = true` sites of the source: end of input inside a block comment,
inside a string literal, or inside a regex literal, and a raw newline
inside a regex literal.  Moreover the other three entry points fail on
exactly the same inputs. -/
theorem c4_minify_error_conditions (input : List Nat) :
    (MinifyJs input = none ↔ ∃ e, MinifyErrorOf input = some e ∧
      (e = MinifyErrCause.unterminatedComment ∨
        e = MinifyErrCause.unterminatedString ∨
        e = MinifyErrCause.unterminatedRegex ∨
        e = MinifyErrCause.newlineInRegex)) ∧
    (GetMinifiedJsSize input).isSome = (MinifyJs input).isSome ∧
    (MinifyJsAndCollapseStrings input).isSome = (MinifyJs input).isSome ∧
    (GetMinifiedStringCollapsedJsSize input).isSome = (MinifyJs input).isSome := by
  refine ⟨?_, ?_, ?_, ?_⟩
  · show GetOutput StringConsumer [] false input = none ↔ _
    simp only [GetOutput, MinifyErrorOf]
    by_cases he : (RunMinifier StringConsumer [] false input).error = none
    · simp only [if_pos he, he]
      constructor
      · intro hcon; cases hcon
      · rintro ⟨e, he2, _⟩; cases he2
    · simp only [if_neg he]
      constructor
      · intro _
        match hcase : (RunMinifier StringConsumer [] false input).error with
        | none => exact absurd hcase he
        | some e =>
          refine ⟨e, rfl, ?_⟩
          cases e
          · exact Or.inl rfl
          · exact Or.inr (Or.inl rfl)
          · exact Or.inr (Or.inr (Or.inl rfl))
          · exact Or.inr (Or.inr (Or.inr rfl))
      · intro _; trivial
  · rw [show GetMinifiedJsSize input =
      (MinifyJs input).map List.length from sizeSink_eq_map_length false input]
    cases MinifyJs input <;> rfl
  · show (GetOutput StringConsumer [] true input).isSome = _
    simp only [GetOutput]
    rw [← error_indep_collapse input]
    by_cases he : (RunMinifier StringConsumer [] false input).error = none
    · simp only [if_pos he]
      show Bool.true = (GetOutput StringConsumer [] false input).isSome
      simp only [GetOutput, if_pos he]
      rfl
    · simp only [if_neg he]
      show Bool.false = (GetOutput StringConsumer [] false input).isSome
      simp only [GetOutput, if_neg he]
      rfl
  · rw [show GetMinifiedStringCollapsedJsSize input =
      (MinifyJsAndCollapseStrings input).map List.length from
      sizeSink_eq_map_length true input]
    have h2 : (MinifyJsAndCollapseStrings input).isSome =
        (MinifyJs input).isSome := by
      show (GetOutput StringConsumer [] true input).isSome = _
      simp only [GetOutput]
      rw [← error_indep_collapse input]
      by_cases he : (RunMinifier StringConsumer [] false input).error = none
      · simp only [if_pos he]
        show Bool.true = (GetOutput StringConsumer [] false input).isSome
        simp only [GetOutput, if_pos he]
        rfl
      · simp only [if_neg he]
        show Bool.false = (GetOutput StringConsumer [] false input).isSome
        simp only [GetOutput, if_neg he]
        rfl
    rw [← h2]
    cases MinifyJsAndCollapseStrings input <;> rfl

/-! Order lemmas for the `std::map` key order. -/

theorem charListLt_irrefl : ∀ l : List Char, charListLt l l = false
  | [] => rfl
  | a :: as => by
    simp only [charListLt, Nat.lt_irrefl, if_false]
    exact charListLt_irrefl as

theorem charListLt_trans : ∀ a b c : List Char,
    charListLt a b = true → charListLt b c = true → charListLt a c = true
  | [], [], _ :: _, _, _ => rfl
  | [], _ :: _, _ :: _, _, _ => rfl
  | _ :: _, _ :: _, [], _, hbc => by cases hbc
  | [], [], [], hab, _ => by cases hab
  | [], _ :: _, [], _, hbc => by cases hbc
  | _ :: _, [], _, hab, _ => by cases hab
  | x :: xs, y :: ys, z :: zs, hab, hbc => by
    simp only [charListLt] at hab hbc ⊢
    by_cases hxy : x.toNat < y.toNat
    · by_cases hyz : y.toNat < z.toNat
      · rw [if_pos (Nat.lt_trans hxy hyz)]
      · rw [if_neg hyz] at hbc
        by_cases hzy : z.toNat < y.toNat
        · rw [if_pos hzy] at hbc; cases hbc
        · have hyz2 : y.toNat = z.toNat :=
            Nat.le_antisymm (Nat.not_lt.mp hzy) (Nat.not_lt.mp hyz)
          rw [if_pos (hyz2 ▸ hxy)]
    · rw [if_neg hxy] at hab
      by_cases hyx : y.toNat < x.toNat
      · rw [if_pos hyx] at hab; cases hab
      · rw [if_neg hyx] at hab
        have hxy2 : x.toNat = y.toNat :=
          Nat.le_antisymm (Nat.not_lt.mp hyx) (Nat.not_lt.mp hxy)
        by_cases hyz : y.toNat < z.toNat
        · rw [hxy2, if_pos hyz]
        · rw [if_neg hyz] at hbc
          by_cases hzy : z.toNat < y.toNat
          · rw [if_pos hzy] at hbc; cases hbc
          · rw [if_neg hzy] at hbc
            rw [hxy2, if_neg hyz, if_neg hzy]
            exact charListLt_trans xs ys zs hab hbc

theorem charListLt_total : ∀ a b : List Char,
    charListLt a b = false → charListLt b a = false → a = b
  | [], [], _, _ => rfl
  | [], _ :: _, hab, _ => by cases hab
  | _ :: _, [], _, hba => by cases hba
  | x :: xs, y :: ys, hab, hba => by
    simp only [charListLt] at hab hba
    by_cases hxy : x.toNat < y.toNat
    · rw [if_pos hxy] at hab; cases hab
    · by_cases hyx : y.toNat < x.toNat
      · rw [if_pos hyx] at hba; cases hba
      · rw [if_neg hxy, if_neg hyx] at hab
        rw [if_neg hyx, if_neg hxy] at hba
        have hx : x = y := by
          have hn : x.toNat = y.toNat :=
            Nat.le_antisymm (Nat.not_lt.mp hyx) (Nat.not_lt.mp hxy)
          have hv : x.val = y.val := by
            unfold Char.toNat at hn
            exact UInt32.toNat.inj hn
          exact Char.ext hv
        rw [hx, charListLt_total xs ys hab hba]

theorem strLt_irrefl (s : String) : strLt s s = false :=
  charListLt_irrefl s.data

theorem strLt_trans {a b c : String} (hab : strLt a b = true)
    (hbc : strLt b c = true) : strLt a c = true :=
  charListLt_trans a.data b.data c.data hab hbc

theorem strLt_total {a b : String} (hab : strLt a b = false)
    (hba : strLt b a = false) : a = b := by
  have h := charListLt_total a.data b.data hab hba
  cases a; cases b
  simp only at h
  rw [h]

theorem strLt_ne {a b : String} (h : strLt a b = true) : a ≠ b := by
  intro he
  rw [he, strLt_irrefl] at h
  cases h

/-! Lemmas about the sorted association-list model of `std::map`. -/

theorem mapFind_nil {α : Type} (k : String) : mapFind ([] : List (String × α)) k = none := rfl

theorem mapFind_cons {α : Type} (p : String × α) (t : List (String × α))
    (k : String) :
    mapFind (p :: t) k = if p.1 = k then some p.2 else mapFind t k := by
  by_cases h : p.1 = k
  · simp [mapFind, List.find?, h]
  · simp [mapFind, List.find?, h]

theorem mapFind_eq_none {α : Type} (l : List (String × α)) (k : String)
    (h : ∀ p ∈ l, p.1 ≠ k) : mapFind l k = none := by
  induction l with
  | nil => rfl
  | cons p t ih =>
    rw [mapFind_cons, if_neg (h p (List.mem_cons_self p t))]
    exact ih (fun q hq => h q (List.mem_cons_of_mem p hq))

theorem mapFind_upsert_self {α : Type} (l : List (String × α)) (k : String)
    (f : Option α → α) (hs : MapSorted l) :
    mapFind (mapUpsert l k f) k = some (f (mapFind l k)) := by
  induction l with
  | nil => simp [mapUpsert, mapFind_cons, mapFind_nil]
  | cons p t ih =>
    obtain ⟨k', v'⟩ := p
    have hpt := (List.pairwise_cons.mp hs).1
    have hts := (List.pairwise_cons.mp hs).2
    by_cases h1 : strLt k k' = true
    · simp only [mapUpsert, if_pos h1]
      rw [mapFind_cons, if_pos rfl]
      have hnone : mapFind ((k', v') :: t) k = none := by
        apply mapFind_eq_none
        intro q hq
        rcases List.mem_cons.mp hq with hq1 | hq2
        · rw [hq1]
          intro he
          exact strLt_ne h1 he.symm
        · intro he
          have h2 := hpt q hq2
          have h3 := strLt_trans h1 h2
          rw [he] at h3
          exact strLt_ne h3 rfl
      rw [hnone]
    · by_cases h2 : k = k'
      · subst h2
        have hu : mapUpsert ((k, v') :: t) k f = (k, f (some v')) :: t := by
          simp [mapUpsert, if_neg h1]
        rw [hu, mapFind_cons, if_pos rfl, mapFind_cons, if_pos rfl]
      · simp only [mapUpsert, if_neg h1, if_neg h2]
        rw [mapFind_cons, if_neg (fun he => h2 he.symm),
          mapFind_cons, if_neg (fun he => h2 he.symm)]
        exact ih hts

theorem mapUpsert_key_mem {α : Type} :
    ∀ (l : List (String × α)) (k : String) (f : Option α → α)
    (p : String × α), p ∈ mapUpsert l k f → p.1 = k ∨ p.1 ∈ mapKeys l
  | [], k, f, p, hp => by
    simp only [mapUpsert, List.mem_singleton] at hp
    rw [hp]
    exact Or.inl rfl
  | (k', v') :: t, k, f, p, hp => by
    simp only [mapUpsert] at hp
    by_cases h1 : strLt k k' = true
    · rw [if_pos h1] at hp
      rcases List.mem_cons.mp hp with h | h
      · rw [h]; exact Or.inl rfl
      · rcases List.mem_cons.mp h with h2 | h2
        · rw [h2]; exact Or.inr (List.mem_cons_self _ _)
        · exact Or.inr (List.mem_cons_of_mem _ (List.mem_map_of_mem Prod.fst h2))
    · rw [if_neg h1] at hp
      by_cases h2 : k = k'
      · rw [if_pos h2] at hp
        rcases List.mem_cons.mp hp with h | h
        · rw [h]; exact Or.inr (List.mem_cons_self _ _)
        · exact Or.inr (List.mem_cons_of_mem _ (List.mem_map_of_mem Prod.fst h))
      · rw [if_neg h2] at hp
        rcases List.mem_cons.mp hp with h | h
        · rw [h]; exact Or.inr (List.mem_cons_self _ _)
        · rcases mapUpsert_key_mem t k f p h with h3 | h3
          · exact Or.inl h3
          · exact Or.inr (List.mem_cons_of_mem _ h3)

theorem mapUpsert_sorted {α : Type} :
    ∀ (l : List (String × α)) (k : String) (f : Option α → α),
    MapSorted l → MapSorted (mapUpsert l k f)
  | [], k, f, _ => by simp [mapUpsert, MapSorted]
  | (k', v') :: t, k, f, hs => by
    have hpt := (List.pairwise_cons.mp hs).1
    have hts := (List.pairwise_cons.mp hs).2
    by_cases h1 : strLt k k' = true
    · simp only [mapUpsert, if_pos h1]
      apply List.pairwise_cons.mpr
      constructor
      · intro q hq
        rcases List.mem_cons.mp hq with h | h
        · rw [h]; exact h1
        · exact strLt_trans h1 (hpt q h)
      · exact hs
    · by_cases h2 : k = k'
      · subst h2
        simp only [mapUpsert, if_neg h1, if_pos rfl]
        apply List.pairwise_cons.mpr
        exact ⟨hpt, hts⟩
      · simp only [mapUpsert, if_neg h1, if_neg h2]
        apply List.pairwise_cons.mpr
        constructor
        · intro q hq
          rcases mapUpsert_key_mem t k f q hq with h3 | h3
          · rw [h3]
            by_cases h4 : strLt k' k = true
            · exact h4
            · exact absurd
                (strLt_total (Bool.eq_false_iff.mpr h1)
                  (Bool.eq_false_iff.mpr h4)) h2
          · rcases List.mem_map.mp h3 with ⟨q', hq', hq2⟩
            rw [← hq2]
            exact hpt q' hq'
        · exact mapUpsert_sorted t k f hts

/-- C5 counterexample: the URL-map key is the RAW request URL, not a
canonicalized one.  Adding a resource whose request URL carries a
fragment succeeds and stores it under the fragment-bearing key; the
fragment-stripping lookup then fails to find the resource even when
queried with the resource's own request URL (which canonicalizes to the
fragment-free form, a different string). -/
theorem c5_counterexample :
    (AddResource emptyResourceCollection c5Resource).2 = true ∧
    mapKeys (AddResource emptyResourceCollection c5Resource).1.urlResourceMap
      = ["http://a/x#f"] ∧
    GetUriWithoutFragment "http://a/x#f" = some "http://a/x" ∧
    hasResourceWithUrl (AddResource emptyResourceCollection c5Resource).1
      "http://a/x#f" = false ∧
    GetResourceWithUrlOrNull (AddResource emptyResourceCollection c5Resource).1
      "http://a/x#f" = none := by decide

/-- C5 (amended): `AddResource` inserts under the RAW request URL while
the lookups canonicalize the query, so an added resource is found by
exactly those queries whose canonicalization (or raw form, on
canonicalization failure) equals the resource's raw request URL. -/
theorem c5_raw_key_canonical_lookup (c : ResourceCollection) (r : Resource)
    (q : String) (hs : MapSorted c.urlResourceMap)
    (hadd : (AddResource c r).2 = true)
    (hq : (match GetUriWithoutFragment q with
           | some u => u
           | none => q) = r.requestUrl) :
    GetResourceWithUrlOrNull (AddResource c r).1 q = some r ∧
    hasResourceWithUrl (AddResource c r).1 q = true := by
  unfold AddResource at hadd ⊢
  by_cases h1 : c.frozen
  · rw [if_pos h1] at hadd; cases hadd
  · rw [if_neg h1] at hadd ⊢
    by_cases h2 : ¬ IsValidResource c r = true
    · rw [if_pos h2] at hadd; cases hadd
    · rw [if_neg h2] at hadd ⊢
      have hfind : mapFind
          (mapInsert c.urlResourceMap r.requestUrl r)
          (match GetUriWithoutFragment q with
           | some u => u
           | none => q) = some r := by
        rw [hq]
        exact mapFind_upsert_self c.urlResourceMap r.requestUrl _ hs
      constructor
      · exact hfind
      · simp only [hasResourceWithUrl]
        rw [hfind]
        rfl

/-- C5 amended witness: a concrete fragment-free resource is found by a
fragment-bearing query canonicalizing to its URL. -/
theorem c5_witness :
    GetResourceWithUrlOrNull (AddResource emptyResourceCollection c5W).1
      "u#frag" = some c5W :=
  (c5_raw_key_canonical_lookup emptyResourceCollection c5W "u#frag"
    List.Pairwise.nil (by decide) (by decide)).1

/-- Stability of the redirect-map sortedness under `RedirectGraph::AddResource`. -/
theorem redirectGraphAddResource_sorted (g : RedirectGraph) (r : Resource)
    (hs : MapSorted g.redirectMap) :
    MapSorted (RedirectGraphAddResource g r).redirectMap := by
  unfold RedirectGraphAddResource
  by_cases h : GetRedirectedUrl r ≠ ""
  · simp only [if_pos h]
    exact mapUpsert_sorted _ _ _ hs
  · simp only [if_neg h]
    exact hs

/-- The redirect map built from any resource list is key-sorted. -/
theorem buildRedirectGraph_sorted (rs : List Resource) :
    MapSorted (BuildRedirectGraph rs).redirectMap := by
  unfold BuildRedirectGraph
  have key : ∀ g : RedirectGraph, MapSorted g.redirectMap →
      MapSorted (rs.foldl RedirectGraphAddResource g).redirectMap := by
    induction rs with
    | nil => intro g h; exact h
    | cons r rest ih =>
      intro g h
      exact ih _ (redirectGraphAddResource_sorted g r h)
  exact key emptyRedirectGraph List.Pairwise.nil

/-- C6 (amended): the prioritized roots are all PRIMARY roots (sources
that are not destinations) followed by all SECONDARY roots, each group in
the multimap's ITERATION order, which for the `std::map` is ascending
lexicographic order of the source URL — not first-observation order. -/
theorem c6_root_order (rs : List Resource) :
    (mapKeys (BuildRedirectGraph rs).redirectMap).Pairwise
      (fun a b => strLt a b = true) ∧
    GetPriorizedRoots (BuildRedirectGraph rs) =
      (mapKeys (BuildRedirectGraph rs).redirectMap).filter
        (fun root => ! (BuildRedirectGraph rs).destinations.contains root) ++
      (mapKeys (BuildRedirectGraph rs).redirectMap).filter
        (fun root => (BuildRedirectGraph rs).destinations.contains root) := by
  constructor
  · exact List.Pairwise.map Prod.fst (fun a b h => h)
      (buildRedirectGraph_sorted rs)
  · unfold GetPriorizedRoots
    rw [List.partition_eq_filter_filter]
    simp only [mapKeys]
    congr 1
    apply List.filter_congr
    intro x _
    simp [Function.comp]

/-- C6 counterexample: with the redirects b -> t added before a -> t
(both PRIMARY roots), the prioritized roots come out in ascending URL
order [a, b], not in the first-observed source order [b, a] that the
claim asserts. -/
theorem c6_counterexample :
    GetPriorizedRoots (BuildRedirectGraph [c6ResB, c6ResA]) = ["a", "b"] ∧
    firstObservedSourceOrder [c6ResB, c6ResA] = ["b", "a"] ∧
    GetPriorizedRoots (BuildRedirectGraph [c6ResB, c6ResA]) ≠
      firstObservedSourceOrder [c6ResB, c6ResA] := by decide

/-! Lemmas about the unsorted association-list model of the pointer-keyed
registry map, and the non-empty-chains invariant of the registry. -/

theorem assocFind_some_mem {κ ν : Type} [DecidableEq κ]
    (l : List (κ × ν)) (k : κ) (v : ν) (h : assocFind l k = some v) :
    ∃ p ∈ l, p.2 = v := by
  unfold assocFind at h
  rcases Option.map_eq_some'.mp h with ⟨p, hp, hv⟩
  exact ⟨p, List.mem_of_find?_eq_some hp, hv⟩

theorem assocUpsert_mem {κ ν : Type} [DecidableEq κ] :
    ∀ (l : List (κ × ν)) (k : κ) (v : ν) (p : κ × ν),
    p ∈ assocUpsert l k v → p ∈ l ∨ p = (k, v)
  | [], k, v, p, hp => by
    simp only [assocUpsert, List.mem_singleton] at hp
    exact Or.inr hp
  | (k', v') :: t, k, v, p, hp => by
    simp only [assocUpsert] at hp
    by_cases h : k = k'
    · rw [if_pos h] at hp
      rcases List.mem_cons.mp hp with h2 | h2
      · exact Or.inr h2
      · exact Or.inl (List.mem_cons_of_mem _ h2)
    · rw [if_neg h] at hp
      rcases List.mem_cons.mp hp with h2 | h2
      · exact Or.inl (h2 ▸ List.mem_cons_self _ _)
      · rcases assocUpsert_mem t k v p h2 with h3 | h3
        · exact Or.inl (List.mem_cons_of_mem _ h3)
        · exact Or.inr h3

theorem assocErase_mem {κ ν : Type} [DecidableEq κ] :
    ∀ (l : List (κ × ν)) (k : κ) (p : κ × ν),
    p ∈ assocErase l k → p ∈ l
  | [], _, _, hp => by cases hp
  | (k', v') :: t, k, p, hp => by
    simp only [assocErase] at hp
    by_cases h : k' = k
    · rw [if_pos h] at hp
      exact List.mem_cons_of_mem _ hp
    · rw [if_neg h] at hp
      rcases List.mem_cons.mp hp with h2 | h2
      · exact h2 ▸ List.mem_cons_self _ _
      · exact List.mem_cons_of_mem _ (assocErase_mem t k p h2)

theorem foldl_assocErase_mem {κ ν : Type} [DecidableEq κ] :
    ∀ (ks : List κ) (m : List (κ × ν)) (p : κ × ν),
    p ∈ ks.foldl (fun acc k => assocErase acc k) m → p ∈ m
  | [], _, _, hp => hp
  | k :: rest, m, p, hp =>
    assocErase_mem m k p (foldl_assocErase_mem rest (assocErase m k) p hp)

theorem foldl_assocUpsert_mem {κ ν : Type} [DecidableEq κ] :
    ∀ (ks : List κ) (v : ν) (m : List (κ × ν)) (p : κ × ν),
    p ∈ ks.foldl (fun acc k => assocUpsert acc k v) m →
    p ∈ m ∨ (p.2 = v ∧ ks ≠ [])
  | [], _, _, _, hp => Or.inl hp
  | k :: rest, v, m, p, hp => by
    rcases foldl_assocUpsert_mem rest v (assocUpsert m k v) p hp with h | h
    · rcases assocUpsert_mem m k v p h with h2 | h2
      · exact Or.inl h2
      · exact Or.inr ⟨by rw [h2], by intro hc; cases hc⟩
    · exact Or.inr ⟨h.1, by intro hc; cases hc⟩

theorem removeChainsLoop_mem (fixup : List Resource) :
    ∀ (chains : List (List Resource))
    (m : List (Resource × List Resource)) (p : Resource × List Resource),
    p ∈ (RemoveChainsLoop fixup chains m).2 → p ∈ m
  | [], _, _, hp => hp
  | chain :: rest, m, p, hp => by
    cases chain with
    | nil =>
      simp only [RemoveChainsLoop] at hp
      exact removeChainsLoop_mem fixup rest m p hp
    | cons c0 ctail =>
      simp only [RemoveChainsLoop] at hp
      by_cases h : fixup.contains c0 = true
      · rw [if_pos h] at hp
        exact foldl_assocErase_mem (c0 :: ctail) m p
          (removeChainsLoop_mem fixup rest _ p hp)
      · rw [if_neg h] at hp
        exact removeChainsLoop_mem fixup rest m p hp

theorem buildRedirectChains_values (reg : RedirectRegistry)
    (col : ResourceCollection) (p : Resource × List Resource)
    (hp : p ∈ (BuildRedirectChains reg col).resourceToRedirectChainMap) :
    p ∈ reg.resourceToRedirectChainMap ∨ p.2 ≠ [] := by
  have key : ∀ (cs : List (List Resource))
      (m : List (Resource × List Resource)) (q : Resource × List Resource),
      q ∈ cs.foldl
        (fun m chain => chain.foldl (fun m r => assocUpsert m r chain) m) m →
      q ∈ m ∨ q.2 ≠ [] := by
    intro cs
    induction cs with
    | nil => intro m q hq; exact Or.inl hq
    | cons c rest ih =>
      intro m q hq
      rcases ih _ q hq with h | h
      · rcases foldl_assocUpsert_mem c c m q h with h2 | h2
        · exact Or.inl h2
        · refine Or.inr ?_
          rw [h2.1]
          exact h2.2
      · exact Or.inr h
  exact key _ _ p hp

/-- The non-empty-chains invariant of the resource-to-chain map is
preserved by `RedirectRegistry::Init`. -/
theorem registryInit_nonempty_chains (reg : RedirectRegistry)
    (col : ResourceCollection)
    (h0 : ∀ p ∈ reg.resourceToRedirectChainMap, p.2 ≠ []) :
    ∀ p ∈ (RedirectRegistryInit reg col).resourceToRedirectChainMap,
      p.2 ≠ [] := by
  have hbase : ∀ p ∈ (RedirectRegistryInitBase reg col).resourceToRedirectChainMap,
      p.2 ≠ [] := by
    unfold RedirectRegistryInitBase
    by_cases h : ¬ reg.initialized ∧ col.frozen
    · rw [if_pos h]
      intro p hp
      rcases buildRedirectChains_values reg col p hp with h2 | h2
      · exact h0 p h2
      · exact h2
    · rw [if_neg h]
      exact h0
  unfold RedirectRegistryInit
  by_cases hf : BuildFixUpRedirectChain col = []
  · rw [if_pos hf]
    exact hbase
  · rw [if_neg hf]
    set regB := RedirectRegistryInitBase reg col with hregB
    by_cases hrep : (match GetRedirectChainOrNull regB
        (match GetPrimaryResourceOrNull col with
         | some p => some p
         | none => (BuildFixUpRedirectChain col).getLast?) with
      | none => true
      | some pc => decide (pc.length < (BuildFixUpRedirectChain col).length)) = true
    · rw [if_pos hrep]
      intro p hp
      simp only at hp
      rcases foldl_assocUpsert_mem (BuildFixUpRedirectChain col)
          (BuildFixUpRedirectChain col) _ p hp with h | h
      · exact hbase p (removeChainsLoop_mem _ _ _ p h)
      · rw [h.1]
        exact hf
    · rw [if_neg hrep]
      exact hbase

/-- C7: `GetFinalRedirectTarget` returns the last element of the
resource's chain when `GetRedirectChainOrNull` yields one, and the
resource itself (in particular `none` for `none`) when it does not.  The
hypothesis is the registry invariant that every mapped chain is
non-empty, which `RedirectRegistryInit` establishes
(`registryInit_nonempty_chains`). -/
theorem c7_final_target (reg : RedirectRegistry) (r : Option Resource)
    (hne : ∀ p ∈ reg.resourceToRedirectChainMap, p.2 ≠ []) :
    (r = none → GetFinalRedirectTarget reg r = none) ∧
    (GetRedirectChainOrNull reg r = none → GetFinalRedirectTarget reg r = r) ∧
    (∀ chain, GetRedirectChainOrNull reg r = some chain →
      chain ≠ [] ∧ GetFinalRedirectTarget reg r = chain.getLast? ∧
        (GetFinalRedirectTarget reg r).isSome = true) := by
  refine ⟨?_, ?_, ?_⟩
  · rintro rfl
    rfl
  · intro h
    unfold GetFinalRedirectTarget
    rw [h]
  · intro chain hc
    have hch : chain ≠ [] := by
      match r with
      | none => cases hc
      | some res =>
        rcases assocFind_some_mem _ _ _ hc with ⟨p, hp, hv⟩
        rw [← hv]
        exact hne p hp
    refine ⟨hch, ?_, ?_⟩
    · unfold GetFinalRedirectTarget
      rw [hc]
    · unfold GetFinalRedirectTarget
      rw [hc]
      simp only [List.getLast?_isSome]
      exact hch

/-- C7 witness: a concrete registry with the chain [c7A, c7B]; the final
target of c7A is c7B, a resource with no chain maps to itself, and the
null resource maps to null. -/
theorem c7_witness :
    GetFinalRedirectTarget c7Reg none = none ∧
    GetFinalRedirectTarget c7Reg (some c7C) = some c7C ∧
    GetFinalRedirectTarget c7Reg (some c7A) = some c7B := by
  refine ⟨(c7_final_target c7Reg none (by decide)).1 rfl, ?_, ?_⟩
  · exact (c7_final_target c7Reg (some c7C) (by decide)).2.1 (by decide)
  · have h := (c7_final_target c7Reg (some c7A) (by decide)).2.2
      [c7A, c7B] (by decide)
    rw [h.2.1]
    decide

/-- C10: the fix-up chain is non-empty only when a request-order view
exists and its first resource is a REDIRECT (and then the chain starts
with that resource); the chain is never a single non-REDIRECT resource;
and when the first request-ordered resource is not a redirect (or no view
exists) `RedirectRegistry::Init` performs no chain replacement — it
returns exactly the result of the chain-building phase. -/
theorem c10_fixup_chain (reg : RedirectRegistry) (col : ResourceCollection) :
    (BuildFixUpRedirectChain col ≠ [] →
      ∃ r rest, GetResourcesInRequestOrder col = some (r :: rest) ∧
        r.resourceType = ResourceType.REDIRECT ∧
        (BuildFixUpRedirectChain col).head? = some r) ∧
    (∀ r, BuildFixUpRedirectChain col = [r] →
      r.resourceType = ResourceType.REDIRECT) ∧
    ((∀ r rest, GetResourcesInRequestOrder col = some (r :: rest) →
        r.resourceType ≠ ResourceType.REDIRECT) →
      RedirectRegistryInit reg col = RedirectRegistryInitBase reg col) := by
  have hempty : BuildFixUpRedirectChain col = [] →
      RedirectRegistryInit reg col = RedirectRegistryInitBase reg col := by
    intro h
    unfold RedirectRegistryInit
    rw [if_pos h]
  cases hview : GetResourcesInRequestOrder col with
  | none =>
    have hchain : BuildFixUpRedirectChain col = [] := by
      unfold BuildFixUpRedirectChain
      rw [hview]
    refine ⟨fun h => absurd hchain h, ?_, fun _ => hempty hchain⟩
    intro r h
    rw [hchain] at h
    cases h
  | some rs =>
    cases rs with
    | nil =>
      exfalso
      unfold GetResourcesInRequestOrder at hview
      by_cases h : col.requestOrderVector = []
      · rw [if_pos h] at hview
        cases hview
      · rw [if_neg h] at hview
        injection hview with hinj
        exact h hinj
    | cons r rest =>
      have hchain : BuildFixUpRedirectChain col =
          BuildFixUpRedirectChainLoop (r :: rest) 0 := by
        unfold BuildFixUpRedirectChain
        rw [hview]
      by_cases hr : r.resourceType = ResourceType.REDIRECT
      · have hunf : BuildFixUpRedirectChain col =
            r :: BuildFixUpRedirectChainLoop rest 1 := by
          rw [hchain]
          simp only [BuildFixUpRedirectChainLoop, if_pos hr]
        refine ⟨?_, ?_, ?_⟩
        · intro _
          refine ⟨r, rest, rfl, hr, ?_⟩
          rw [hunf]
          rfl
        · intro r' h
          rw [hunf] at h
          injection h with h1 _
          rw [← h1]
          exact hr
        · intro hcon
          exact absurd hr (hcon r rest rfl)
      · have hloop : BuildFixUpRedirectChain col = [] := by
          rw [hchain]
          simp [BuildFixUpRedirectChainLoop, hr]
        refine ⟨fun h => absurd hloop h, ?_, fun _ => hempty hloop⟩
        intro r' h
        rw [hloop] at h
        cases h

/-- C10 witness: a concrete frozen collection whose request-order view
starts with a non-redirect; Init performs no replacement. -/
theorem c10_witness :
    RedirectRegistryInit emptyRedirectRegistry c10Col =
      RedirectRegistryInitBase emptyRedirectRegistry c10Col := by
  refine (c10_fixup_chain emptyRedirectRegistry c10Col).2.2 ?_
  intro r rest h
  have h2 : GetResourcesInRequestOrder c10Col = some [c7B] := by decide
  rw [h2] at h
  injection h with h3
  injection h3 with h4 h5
  rw [← h4]
  decide

/-- C8: the JPEG-options guard is inverted in the source.  With a null
`jpeg_options` the code evaluates `ConvertPngToJpeg(..., *jpeg_options, ...)`
and dereferences the null pointer (regardless of the other arguments),
and with non-null options the JPEG conversion is never attempted at all —
the outcome does not depend on what the conversion would produce.  The
claim (and the spec's design note) states the opposite, intended
behaviour. -/
theorem c8_jpeg_guard_inverted :
    GetSmallestOfPngJpegWebp c8Env "img" none none =
      ImgOutcome.nullDeref NullPtrDeref.jpegOptions ∧
    GetSmallestOfPngJpegWebp c8Env "img" none (some ⟨false⟩) =
      ImgOutcome.nullDeref NullPtrDeref.jpegOptions ∧
    (∀ j1 j2 : Option String,
      GetSmallestOfPngJpegWebp { c8Env with jpegConversion := j1 } "img"
          (some ⟨false⟩) (some ⟨false⟩) =
        GetSmallestOfPngJpegWebp { c8Env with jpegConversion := j2 } "img"
          (some ⟨false⟩) (some ⟨false⟩)) :=
  ⟨by decide, by decide, fun _ _ => rfl⟩

/-- Helper: a string with empty character data is the empty string. -/
theorem strData_eq_empty (s : String) (h : s.data = []) : s = "" := by
  cases s with
  | mk d =>
    cases h
    rfl

/-- Helper: `SelectSmallerImage` with an empty candidate is the identity. -/
theorem select_empty (t : ImageType) (th : ℚ)
    (b : ImageType × Option String) : SelectSmallerImage t "" th b = b := by
  unfold SelectSmallerImage
  rw [if_neg]
  intro hc
  exact absurd hc.1 (by decide)

/-- Helper: `SelectSmallerImage` with a non-empty candidate fires from the
initial `(IMAGE_NONE, NULL)` state. -/
theorem select_from_none (t : ImageType) (s : String) (th : ℚ)
    (hs : s ≠ "") :
    SelectSmallerImage t s th (ImageType.IMAGE_NONE, none) = (t, some s) := by
  unfold SelectSmallerImage
  rw [if_pos]
  constructor
  · have hd : s.data ≠ [] := fun hnil => hs (strData_eq_empty s hnil)
    exact List.length_pos.mpr hd
  · exact Or.inl rfl

/-- Helper: `SelectSmallerImage` never downgrades a non-null best image to
null. -/
theorem select_preserves_isSome (t : ImageType) (s : String) (th : ℚ)
    (b : ImageType × Option String) (h : b.2.isSome = true) :
    (SelectSmallerImage t s th b).2.isSome = true := by
  rcases b with ⟨bt, bo⟩
  cases bo with
  | none => exact Bool.noConfusion h
  | some x =>
    simp only [SelectSmallerImage]
    split
    · rfl
    · rfl

/-- C9: the final lossless-versus-lossy comparison dereferences
`best_lossy_image` unconditionally, and that pointer is null exactly when
both lossy candidate strings (`webp_lossy_out` and `jpeg_out`) are empty;
in particular, whenever `webp_config` is null (and `jpeg_options` is
non-null, so that the earlier null dereference is not hit), the call
always dereferences the null `best_lossy_image`. -/
theorem c9_lossy_deref_precondition :
    (∀ input wLossless pngO wLossy jpegO : String,
      (GetSmallestSelectionPhase input wLossless pngO wLossy jpegO =
        ImgOutcome.nullDeref NullPtrDeref.bestLossyImage) ↔
      (wLossy = "" ∧ jpegO = "")) ∧
    (∀ (env : ImageEnv) (input : String) (o : JpegCompressionOptions),
      GetSmallestOfPngJpegWebp env input (some o) none =
        ImgOutcome.nullDeref NullPtrDeref.bestLossyImage) := by
  have hphase : ∀ input wLossless pngO wLossy jpegO : String,
      (GetSmallestSelectionPhase input wLossless pngO wLossy jpegO =
        ImgOutcome.nullDeref NullPtrDeref.bestLossyImage) ↔
      (wLossy = "" ∧ jpegO = "") := by
    intro input wL pngO wLossy jpegO
    constructor
    · intro h
      by_cases hw : wLossy = ""
      · by_cases hj : jpegO = ""
        · exact ⟨hw, hj⟩
        · exfalso
          simp only [GetSmallestSelectionPhase] at h
          rw [hw, select_empty,
            select_from_none ImageType.IMAGE_JPEG jpegO 1 hj] at h
          cases h
      · exfalso
        simp only [GetSmallestSelectionPhase] at h
        rw [select_from_none ImageType.IMAGE_WEBP wLossy 1 hw] at h
        have hsome := select_preserves_isSome ImageType.IMAGE_JPEG jpegO 1
          (ImageType.IMAGE_WEBP, some wLossy) rfl
        rcases Option.isSome_iff_exists.mp hsome with ⟨x, hx⟩
        rw [hx] at h
        cases h
    · rintro ⟨hw, hj⟩
      subst hw
      subst hj
      simp only [GetSmallestSelectionPhase]
      rw [select_empty, select_empty]
  refine ⟨hphase, ?_⟩
  intro env input o
  have hfull : GetSmallestOfPngJpegWebp env input (some o) none =
      GetSmallestSelectionPhase input
        (match env.webpLossless with
         | some s => s
         | none => "")
        (match env.pngOut with
         | some s => s
         | none => "") "" "" := by
    simp only [GetSmallestOfPngJpegWebp]
    rw [if_neg (fun hc => absurd hc.1 (by decide))]
    rfl
  rw [hfull]
  exact (hphase _ _ _ _ _).mpr ⟨rfl, rfl⟩
